import Mathlib

/-!
Verification of the person-record processing pipeline (`src/data_processor.py`).

The embedding models Python text as lists of Unicode code points (`PyStr`),
Python values occurring in records as the nested inductive `PyVal`, and Python
dicts as association lists in insertion order with unique keys, exactly as the
source manipulates them.  Fallible Python code (code that can raise) is
modelled with `Option`/`Except`.  Case mappings (`str.lower`, `str.upper`,
`str.capitalize`) are modelled at the ASCII level, and `str()` of nested
containers is modelled by an explicit rendering function; both match CPython
on the ASCII data the pipeline handles.
-/

namespace DP

/-- Python strings, as lists of Unicode code points. -/
abbrev PyStr := List Nat

/-- Python values stored in record fields: strings, ints, dicts (association
lists in insertion order) and lists.  This is also the shape of parsed JSON
bodies. -/
inductive PyVal where
  | str (s : PyStr)
  | int (n : Int)
  | dict (fields : List (PyStr × PyVal))
  | list (elems : List PyVal)

/-- A Python dict of field name to value, e.g. one person record. -/
abbrev Record := List (PyStr × PyVal)

/-- Code points of the string literals appearing in the source. -/
def kId : PyStr := [105, 100]
def kAddress : PyStr := [97, 100, 100, 114, 101, 115, 115]
def kEmail : PyStr := [101, 109, 97, 105, 108]
def kFirstname : PyStr := [102, 105, 114, 115, 116, 110, 97, 109, 101]
def kLastname : PyStr := [108, 97, 115, 116, 110, 97, 109, 101]
def kPhone : PyStr := [112, 104, 111, 110, 101]
def kBirthday : PyStr := [98, 105, 114, 116, 104, 100, 97, 121]
def kData : PyStr := [100, 97, 116, 97]
def kCity : PyStr := [99, 105, 116, 121]
def kCountry : PyStr := [99, 111, 117, 110, 116, 114, 121]
def kAgeGroup : PyStr := [97, 103, 101, 95, 103, 114, 111, 117, 112]
def kEmailProvider : PyStr := [101, 109, 97, 105, 108, 95, 112, 114, 111, 118, 105, 100, 101, 114]
def kGender : PyStr := [103, 101, 110, 100, 101, 114]
def kStreet : PyStr := [115, 116, 114, 101, 101, 116]
def kStreetName : PyStr := [115, 116, 114, 101, 101, 116, 78, 97, 109, 101]
def kBuildingNumber : PyStr := [98, 117, 105, 108, 100, 105, 110, 103, 78, 117, 109, 98, 101, 114]
def kZipcode : PyStr := [122, 105, 112, 99, 111, 100, 101]
def kCountyCode : PyStr := [99, 111, 117, 110, 116, 121, 95, 99, 111, 100, 101]
def kLatitude : PyStr := [108, 97, 116, 105, 116, 117, 100, 101]
def kLongitude : PyStr := [108, 111, 110, 103, 105, 116, 117, 100, 101]
def kWebsite : PyStr := [119, 101, 98, 115, 105, 116, 101]
def kImage : PyStr := [105, 109, 97, 103, 101]

/-- The anonymization mask token, the four code points of the string of four
asterisks. -/
def maskTok : PyStr := [42, 42, 42, 42]

/-- Python `d[k]` on a dict: the value bound to `k`, `none` when the access
raises `KeyError`.  Dicts have unique keys, so first match is the match. -/
def dictGet : Record → PyStr → Option PyVal
  | [], _ => none
  | (k, v) :: rest, key => if k == key then some v else dictGet rest key

/-- Python `d[k] = v` on a dict: replace the value at an existing key in
place (insertion order preserved), or append a new binding at the end. -/
def dictSet : Record → PyStr → PyVal → Record
  | [], key, v => [(key, v)]
  | (k, w) :: rest, key, v =>
    if k == key then (key, v) :: rest else (k, w) :: dictSet rest key v

/-- Decimal digits with a fuel argument (structural recursion so that
concrete renderings evaluate); the fuel never runs out when it is at least
the number of digits. -/
def natToCpsAux (fuel n : Nat) : List Nat :=
  match fuel with
  | 0 => []
  | fuel + 1 =>
    if n < 10 then [48 + n] else natToCpsAux fuel (n / 10) ++ [48 + n % 10]

/-- Decimal digits of a natural number, most significant first, as code
points (Python `str(n)` for `n ≥ 0`). -/
def natToCps (n : Nat) : List Nat := natToCpsAux (n + 1) n

/-- Python `str()` of an int, including the minus sign for negatives. -/
def intToCps (i : Int) : List Nat :=
  if i < 0 then 45 :: natToCps i.natAbs else natToCps i.toNat

mutual

/-- Python `str(v)` of a record value: identity on strings, decimal rendering
of ints, and the brace/bracket container rendering (with `repr`-style quoted
strings inside containers) for dicts and lists. -/
def pyToStr : PyVal → PyStr
  | .str s => s
  | .int n => intToCps n
  | .dict f => 123 :: pyDictBody f ++ [125]
  | .list l => 91 :: pyListBody l ++ [93]

/-- Python `repr(v)`, as used for elements inside container renderings:
strings get single quotes (code point 39) around them. -/
def pyRepr : PyVal → PyStr
  | .str s => 39 :: s ++ [39]
  | .int n => intToCps n
  | .dict f => 123 :: pyDictBody f ++ [125]
  | .list l => 91 :: pyListBody l ++ [93]

/-- Comma-separated `'key': repr(value)` entries of a dict rendering. -/
def pyDictBody : List (PyStr × PyVal) → PyStr
  | [] => []
  | [(k, v)] => 39 :: k ++ [39, 58, 32] ++ pyRepr v
  | (k, v) :: rest => 39 :: k ++ [39, 58, 32] ++ pyRepr v ++ [44, 32] ++ pyDictBody rest

/-- Comma-separated `repr(value)` entries of a list rendering. -/
def pyListBody : List PyVal → PyStr
  | [] => []
  | [v] => pyRepr v
  | v :: rest => pyRepr v ++ [44, 32] ++ pyListBody rest

end

/-! ### Cleaner (`clean_data`) -/

/-- ASCII model of the lower-case mapping used by Python `str.lower`. -/
def lowerCp (n : Nat) : Nat := if 65 ≤ n ∧ n ≤ 90 then n + 32 else n

/-- ASCII model of the upper-case mapping used by Python `str.upper`. -/
def upperCp (n : Nat) : Nat := if 97 ≤ n ∧ n ≤ 122 then n - 32 else n

/-- Python `s.lower()`. -/
def pyLower (s : PyStr) : PyStr := s.map lowerCp

/-- Python `s.capitalize()`: upper-case the first character and lower-case
every remaining character. -/
def pyCapitalize : PyStr → PyStr
  | [] => []
  | c :: rest => upperCp c :: rest.map lowerCp

/-- Is the code point an ASCII decimal digit (Python `\d` for this data)? -/
def isDigitCp (n : Nat) : Bool := decide (48 ≤ n ∧ n ≤ 57)

/-- Python `re.sub(r"\D", "", s)`: keep only the digits. -/
def stripNonDigits (s : PyStr) : PyStr := s.filter isDigitCp

/-- One iteration of the `clean_data` loop body on `item`: copy the record,
lower-case the email, capitalize first and last name, and strip non-digits
from the phone when present.  Returns `none` when the body raises (missing
key, or a method call on a non-string value), in which case the record is
logged and dropped. -/
def cleanItem (item : Record) : Option Record :=
  match dictGet item kEmail with
  | some (.str e) =>
    match dictGet item kFirstname with
    | some (.str fn) =>
      match dictGet item kLastname with
      | some (.str ln) =>
        let r1 := dictSet item kEmail (.str (pyLower e))
        let r2 := dictSet r1 kFirstname (.str (pyCapitalize fn))
        let r3 := dictSet r2 kLastname (.str (pyCapitalize ln))
        match dictGet r3 kPhone with
        | some (.str p) => some (dictSet r3 kPhone (.str (stripNonDigits p)))
        | some _ => none
        | none => some r3
      | _ => none
    | _ => none
  | _ => none

/-- `clean_data`: clean each record, dropping the ones whose cleaning raised. -/
def clean_data (data : List Record) : List Record := data.filterMap cleanItem

/-! ### Deduplicator (`detect_duplicates`) -/

/-- Lexicographic strict order on code point lists (Python string `<`). -/
def cpsLt : List Nat → List Nat → Bool
  | [], [] => false
  | [], _ :: _ => true
  | _ :: _, [] => false
  | a :: as, b :: bs => if a < b then true else if a = b then cpsLt as bs else false

/-- Python tuple `<=` on `(fieldName, stringValue)` pairs: by name, then by
rendered value. -/
def pairLe (x y : PyStr × PyStr) : Bool :=
  cpsLt x.1 y.1 || (x.1 == y.1 && (cpsLt x.2 y.2 || x.2 == y.2))

/-- Insert into a sorted list of pairs (used to model Python `sorted`, whose
comparison here is a total order with no distinct ties since dict keys are
unique). -/
def insertPair (x : PyStr × PyStr) : List (PyStr × PyStr) → List (PyStr × PyStr)
  | [] => [x]
  | y :: ys => if pairLe y x then y :: insertPair x ys else x :: y :: ys

/-- Python `sorted` on a list of `(fieldName, stringValue)` pairs. -/
def sortPairs (l : List (PyStr × PyStr)) : List (PyStr × PyStr) :=
  l.foldr insertPair []

/-- The canonical key of `detect_duplicates`: one flat tuple of
`(fieldName, str(value))` pairs. -/
abbrev CanonKey := List (PyStr × PyStr)

/-- `row_repr` of the `detect_duplicates` loop: the sorted stringified
top-level fields without `id` and `address`, concatenated with the sorted
stringified fields of the address.  `none` when the body raises, i.e. when
the record has no `address` key or its address is not a dict. -/
def canonicalKey (item : Record) : Option CanonKey :=
  match dictGet item kAddress with
  | some (.dict addr) =>
    some
      (sortPairs
          ((item.filter (fun p => !(p.1 == kId) && !(p.1 == kAddress))).map
            (fun p => (p.1, pyToStr p.2))) ++
        sortPairs (addr.map (fun p => (p.1, pyToStr p.2))))
  | _ => none

/-- The `detect_duplicates` loop with its `seen` set of canonical keys.
Returns (unique records, duplicate records), each in input order. -/
def detectAux (seen : List CanonKey) : List Record → List Record × List Record
  | [] => ([], [])
  | item :: rest =>
    match canonicalKey item with
    | none => detectAux seen rest
    | some k =>
      if seen.contains k then
        let p := detectAux seen rest
        (p.1, item :: p.2)
      else
        let p := detectAux (k :: seen) rest
        (item :: p.1, p.2)

/-- `detect_duplicates`. -/
def detect_duplicates (data : List Record) : List Record × List Record :=
  detectAux [] data

/-- The canonical keys of the records strictly before position `i`, skipping
records whose canonicalization raises. -/
def prevKeys (data : List Record) (i : Nat) : List CanonKey :=
  (data.take i).filterMap canonicalKey

/-- Specification side, relative to an initial `seen` set: the records whose
canonical key is defined and occurs neither in `seen` nor earlier in the
input. -/
def uniqueFrom (seen : List CanonKey) (data : List Record) : List Record :=
  (List.range data.length).filterMap fun i =>
    match data.get? i with
    | some r =>
      match canonicalKey r with
      | some k => if (seen ++ prevKeys data i).contains k then none else some r
      | none => none
    | none => none

/-- Specification side: the records whose canonical key is defined and equals
the key of some record either in `seen` or earlier in the input. -/
def dupFrom (seen : List CanonKey) (data : List Record) : List Record :=
  (List.range data.length).filterMap fun i =>
    match data.get? i with
    | some r =>
      match canonicalKey r with
      | some k => if (seen ++ prevKeys data i).contains k then some r else none
      | none => none
    | none => none

/-- Specification: first occurrences of each canonical key, in input order. -/
def firstOccurrences (data : List Record) : List Record := uniqueFrom [] data

/-- Specification: records repeating an earlier canonical key, in input
order. -/
def laterOccurrences (data : List Record) : List Record := dupFrom [] data

/-- A record with the value of its `id` field replaced by `v` and everything
else untouched. -/
def setIdValue : Record → PyVal → Record
  | [], _ => []
  | (k, w) :: rest, v =>
    (bif k == kId then (k, v) else (k, w)) :: setIdValue rest v

/-! ### Date validation (`validate_date`) and age groups

`datetime.strptime(s, "%Y-%m-%d")` compiles the format to the regular
expression `(\d\d\d\d)\-(1[0-2]|0[1-9]|[1-9])\-(3[01]|[12]\d|0[1-9]|[1-9])`,
matches it at the start of the string with the usual leftmost,
alternation-priority backtracking, raises `ValueError` when it does not match
or when unconverted characters remain, and finally raises `ValueError` from
the `datetime` constructor when the numbers are not a real calendar date
(`MINYEAR = 1`).  The candidate lists below enumerate the alternations of the
month and day groups in priority order, each with the suffix left over. -/

/-- The month group `1[0-2]|0[1-9]|[1-9]` of the compiled `%m` directive:
possible `(value, remaining input)` pairs in alternation-priority order. -/
def monthCands : List Nat → List (Nat × List Nat)
  | c1 :: c2 :: rest =>
    (if c1 = 49 ∧ 48 ≤ c2 ∧ c2 ≤ 50 then [(10 + (c2 - 48), rest)] else []) ++
      (if c1 = 48 ∧ 49 ≤ c2 ∧ c2 ≤ 57 then [(c2 - 48, rest)] else []) ++
      (if 49 ≤ c1 ∧ c1 ≤ 57 then [(c1 - 48, c2 :: rest)] else [])
  | [c1] => if 49 ≤ c1 ∧ c1 ≤ 57 then [(c1 - 48, [])] else []
  | [] => []

/-- The day group `3[01]|[12]\d|0[1-9]|[1-9]` of the compiled `%d` directive:
possible `(value, remaining input)` pairs in alternation-priority order. -/
def dayCands : List Nat → List (Nat × List Nat)
  | c1 :: c2 :: rest =>
    (if c1 = 51 ∧ (c2 = 48 ∨ c2 = 49) then [(30 + (c2 - 48), rest)] else []) ++
      (if (c1 = 49 ∨ c1 = 50) ∧ 48 ≤ c2 ∧ c2 ≤ 57 then
        [(10 * (c1 - 48) + (c2 - 48), rest)] else []) ++
      (if c1 = 48 ∧ 49 ≤ c2 ∧ c2 ≤ 57 then [(c2 - 48, rest)] else []) ++
      (if 49 ≤ c1 ∧ c1 ≤ 57 then [(c1 - 48, c2 :: rest)] else [])
  | [c1] => if 49 ≤ c1 ∧ c1 ≤ 57 then [(c1 - 48, [])] else []
  | [] => []

/-- Backtracking over the month candidates: after the month, a literal dash
must follow and then the first day candidate is committed to (the regex
returns its first complete match; the leftover characters are judged
afterwards). -/
def matchMonthDay : List (Nat × List Nat) → Option (Nat × Nat × List Nat)
  | [] => none
  | (m, rest) :: more =>
    match rest with
    | d :: rest2 =>
      if d = 45 then
        match (dayCands rest2).head? with
        | some (dd, rest3) => some (m, dd, rest3)
        | none => matchMonthDay more
      else matchMonthDay more
    | [] => matchMonthDay more

/-- Gregorian leap year as computed by `datetime`. -/
def isLeap (y : Nat) : Bool := decide (y % 4 = 0 ∧ (y % 100 ≠ 0 ∨ y % 400 = 0))

/-- Days in a month as enforced by the `datetime` constructor. -/
def daysInMonth (y m : Nat) : Nat :=
  if m = 2 then (if isLeap y then 29 else 28)
  else if m = 4 ∨ m = 6 ∨ m = 9 ∨ m = 11 then 30
  else 31

/-- The range checks of the `datetime` constructor (`MINYEAR = 1`). -/
def isRealDate (y m d : Nat) : Bool :=
  decide (1 ≤ y ∧ 1 ≤ m ∧ m ≤ 12 ∧ 1 ≤ d ∧ d ≤ daysInMonth y m)

/-- `datetime.strptime(s, "%Y-%m-%d")`: `some (year, month, day)` on success,
`none` when it raises `ValueError`. -/
def strptimeYmd (s : PyStr) : Option (Nat × Nat × Nat) :=
  match s with
  | y1 :: y2 :: y3 :: y4 :: d :: rest =>
    if d = 45 ∧ isDigitCp y1 ∧ isDigitCp y2 ∧ isDigitCp y3 ∧ isDigitCp y4 then
      match matchMonthDay (monthCands rest) with
      | some (m, dd, []) =>
        let y := 1000 * (y1 - 48) + 100 * (y2 - 48) + 10 * (y3 - 48) + (y4 - 48)
        if isRealDate y m dd then some (y, m, dd) else none
      | _ => none
    else none
  | _ => none

/-- `validate_date`. -/
def validate_date (s : PyStr) : Bool := (strptimeYmd s).isSome

/-- The date format stated by the specification sentence, read literally:
exactly `YYYY-MM-DD` with a zero-padded two-digit month and day, denoting a
real calendar date. -/
def specStrictDate (s : PyStr) : Bool :=
  match s with
  | [a, b, c, d, 45, e, f, 45, g, h] =>
    isDigitCp a && isDigitCp b && isDigitCp c && isDigitCp d &&
      isDigitCp e && isDigitCp f && isDigitCp g && isDigitCp h &&
      isRealDate (1000 * (a - 48) + 100 * (b - 48) + 10 * (c - 48) + (d - 48))
        (10 * (e - 48) + (f - 48)) (10 * (g - 48) + (h - 48))
  | _ => false

/-- A one- or two-character month field with numeric value `1..12` (two-digit
forms `01`-`12`, one-digit forms `1`-`9`). -/
def monthFieldTwo (e f : Nat) : Bool :=
  isDigitCp e && isDigitCp f &&
    decide (1 ≤ 10 * (e - 48) + (f - 48) ∧ 10 * (e - 48) + (f - 48) ≤ 12)

/-- A one-digit month field `1`-`9`. -/
def monthFieldOne (e : Nat) : Bool := isDigitCp e && decide (1 ≤ e - 48)

/-- A two-digit day field with numeric value `1..31`. -/
def dayFieldTwo (g h : Nat) : Bool :=
  isDigitCp g && isDigitCp h &&
    decide (1 ≤ 10 * (g - 48) + (h - 48) ∧ 10 * (g - 48) + (h - 48) ≤ 31)

/-- A one-digit day field `1`-`9`. -/
def dayFieldOne (g : Nat) : Bool := isDigitCp g && decide (1 ≤ g - 48)

/-- The month-dash-day tail of the amended date format: a month field and a
day field, each one or two digits with an in-range value, separated by a
dash, and nothing after. -/
def specMonthDay (rest : List Nat) (y : Nat) : Bool :=
  match rest with
  | [e, f, d, g, h] =>
    (d == 45) && monthFieldTwo e f && dayFieldTwo g h &&
      isRealDate y (10 * (e - 48) + (f - 48)) (10 * (g - 48) + (h - 48))
  | [e, f2, g, h] =>
    ((g == 45) && monthFieldTwo e f2 && dayFieldOne h &&
        isRealDate y (10 * (e - 48) + (f2 - 48)) (h - 48)) ||
      ((f2 == 45) && monthFieldOne e && dayFieldTwo g h &&
        isRealDate y (e - 48) (10 * (g - 48) + (h - 48)))
  | [e, d, g] =>
    (d == 45) && monthFieldOne e && dayFieldOne g &&
      isRealDate y (e - 48) (g - 48)
  | _ => false

/-- The date format actually accepted: four-digit year, dash, month and day
fields each one or two digits with values `1..12` and `1..31`, denoting a
real calendar date with year at least 1. -/
def specDateAmended (s : PyStr) : Bool :=
  match s with
  | y1 :: y2 :: y3 :: y4 :: d :: rest =>
    (d == 45) && isDigitCp y1 && isDigitCp y2 && isDigitCp y3 && isDigitCp y4 &&
      specMonthDay rest
        (1000 * (y1 - 48) + 100 * (y2 - 48) + 10 * (y3 - 48) + (y4 - 48))
  | _ => false

/-- The month-and-day part of the `strptime` match, as a Boolean: the regex
finds its first month/day match, no characters remain, and the values form a
real calendar date in year `y`. -/
def parseMonthDay (rest : List Nat) (y : Nat) : Bool :=
  match matchMonthDay (monthCands rest) with
  | some (m, dd, rest3) => rest3.isEmpty && isRealDate y m dd
  | none => false

/-- `calculate_age_group`: parse the birthday, subtract the birth year from
the current year, and render the decade bucket `[D-D+9]`.  `none` when
`strptime` raises.  Python `//` is floor division, `Int.fdiv` here. -/
def calculate_age_group (nowYear : Int) (birthday : PyStr) : Option PyStr :=
  (strptimeYmd birthday).map fun t =>
    let age : Int := nowYear - (t.1 : Int)
    let dec : Int := (age.fdiv 10) * 10
    91 :: intToCps dec ++ 45 :: intToCps (dec + 9) ++ [93]

/-- The rendered age bucket `[D-D+9]` for a decade value `D`. -/
def ageGroupString (dec : Int) : PyStr :=
  91 :: intToCps dec ++ 45 :: intToCps (dec + 9) ++ [93]

/-! ### Email validation and the anonymizer -/

/-- Python `s.split(sep)` for a one-character separator: the (possibly empty)
segments between occurrences of the separator. -/
def splitOnCp (sep : Nat) : List Nat → List (List Nat)
  | [] => [[]]
  | c :: rest =>
    if c = sep then [] :: splitOnCp sep rest
    else
      match splitOnCp sep rest with
      | s :: ss => (c :: s) :: ss
      | [] => [[c]]

/-- `validate_email`: `re.match` of `[^@]+@[^@]+\.[^@]+` at the start of the
string.  The pattern matches exactly when the part before the first `@` is
nonempty and the segment between the first `@` and the following `@` (or the
end) contains a dot that has at least one non-`@` character on each side
within that segment. -/
def validate_email (e : PyStr) : Bool :=
  match splitOnCp 64 e with
  | p0 :: p1 :: _ => !p0.isEmpty && (p1.drop 1).dropLast.contains 46
  | _ => false

/-- One iteration of the `anonymize_data` loop body on `person`, at a given
current year: compute the age group from the birthday, split the email on
`@`, and build the fixed-shape masked record.  `none` when the body raises
(unparseable birthday, no `@` in the email, missing address fields, or a
method call on a value of the wrong type), in which case the record is
logged and dropped. -/
def anonymizeItem (nowYear : Int) (person : Record) : Option Record :=
  match dictGet person kBirthday with
  | some (.str bday) =>
    match calculate_age_group nowYear bday with
    | some ageGroup =>
      match dictGet person kEmail with
      | some (.str e) =>
        match (splitOnCp 64 e).get? 1 with
        | some provider =>
          match dictGet person kAddress with
          | some (.dict addr) =>
            match dictGet addr kCity, dictGet addr kCountry with
            | some city, some country =>
              some
                [(kFirstname, .str maskTok), (kLastname, .str maskTok),
                  (kEmail, .str (maskTok ++ 64 :: provider)),
                  (kPhone, .str maskTok), (kBirthday, .str maskTok),
                  (kGender, .str maskTok), (kStreet, .str maskTok),
                  (kStreetName, .str maskTok), (kBuildingNumber, .str maskTok),
                  (kCity, city), (kZipcode, .str maskTok),
                  (kCountry, country), (kCountyCode, .str maskTok),
                  (kLatitude, .str maskTok), (kLongitude, .str maskTok),
                  (kWebsite, .str maskTok), (kImage, .str maskTok),
                  (kAgeGroup, .str ageGroup), (kEmailProvider, .str provider)]
            | _, _ => none
          | _ => none
        | none => none
      | _ => none
    | none => none
  | _ => none

/-- `anonymize_data`: anonymize each record, dropping the ones whose
anonymization raised. -/
def anonymize_data (nowYear : Int) (data : List Record) : List Record :=
  data.filterMap (anonymizeItem nowYear)

/-- The substring of an email after its first `@`, as the specification
sentence reads. -/
def afterFirstAt (e : PyStr) : PyStr := (e.dropWhile (fun c => !(c == 64))).drop 1

/-- The substring of an email between its first `@` and the following `@`,
running to the end when there is no second `@`.  This is `split("@")[1]`. -/
def betweenAts (e : PyStr) : PyStr := (afterFirstAt e).takeWhile (fun c => !(c == 64))

/-! ### Retrieval client (`fetch_data_chunk`) -/

/-- Exceptions that `fetch_data_chunk` can let escape. -/
inductive PyExn where
  | keyError (k : PyStr)
  | typeError

/-- What one HTTP round trip (with the retry adapter already applied) can
produce: a `requests.RequestException` after retries exhaust, or a response
with a status code and a body that either parses as JSON or does not. -/
inductive HttpResult where
  | exn
  | resp (status : Nat) (body : Option PyVal)

/-- `fetch_data_chunk`: return the `data` field of the JSON body, with every
`requests.RequestException` (connection failures after retries; `HTTPError`
from `raise_for_status` on a 4xx/5xx status; `requests.exceptions.JSONDecodeError`
from `.json()` on a non-JSON body, a `RequestException` subclass since
requests 2.27) caught and turned into the empty-list failure signal.  The
subscript `["data"]` is outside the `except` clause: on a JSON body that is
an object without a `data` field it raises `KeyError`, and on a non-object
JSON body it raises `TypeError`, both escaping to the caller. -/
def fetch_data_chunk (r : HttpResult) : Except PyExn PyVal :=
  match r with
  | .exn => .ok (.list [])
  | .resp status body =>
    if 400 ≤ status ∧ status < 600 then .ok (.list [])
    else
      match body with
      | none => .ok (.list [])
      | some (.dict fields) =>
        match dictGet fields kData with
        | some d => .ok d
        | none => .error (.keyError kData)
      | some _ => .error .typeError

/-- The cases `fetch_data_chunk` treats as a fetch failure: transport-level
exceptions, error statuses, and non-JSON bodies. -/
def isCaughtFailure : HttpResult → Bool
  | .exn => true
  | .resp status body =>
    decide (400 ≤ status ∧ status < 600) || body.isNone

/-- The cases in which the subscript `["data"]` raises: a successfully
received and JSON-decoded body whose top level is not an object with a
`data` field. -/
def hasBadDataShape : HttpResult → Bool
  | .exn => false
  | .resp status body =>
    !decide (400 ≤ status ∧ status < 600) &&
      match body with
      | some (.dict fields) => (dictGet fields kData).isNone
      | some _ => true
      | none => false

/-! ### Fetcher (`fetch_data`) -/

/-- The number of chunk requests dispatched:
`range((total_quantity + chunk_size - 1) // chunk_size)`. -/
def numChunks (total chunk : Nat) : Nat := (total + chunk - 1) / chunk

/-- The `_quantity` parameter of chunk `i`:
`min(chunk_size, total_quantity - i * chunk_size)`. -/
def chunkQuantity (total chunk i : Nat) : Nat := min chunk (total - i * chunk)

/-- The quantities of all dispatched chunk requests, in dispatch order. -/
def chunkQuantities (total chunk : Nat) : List Nat :=
  (List.range (numChunks total chunk)).map (chunkQuantity total chunk)

/-- `fetch_data`'s aggregation: the worker pool dispatches one task per chunk
index and extends the shared list as futures complete.  `results i` is the
record list contributed by chunk `i` (its fetched records, or `[]` when the
chunk failed — a caught failure signal and an escaped per-task exception both
contribute nothing), and `order` is the completion order of the futures. -/
def fetch_data (results : Nat → List Record) (order : List Nat) : List Record :=
  (order.map results).flatten

/-! ### Persister (`store_data`) and pipeline tail -/

/-- The `persons` table: `none` when it does not exist, otherwise its rows in
insertion order. -/
structure DB where
  persons : Option (List Record)

/-- `df.iloc[i : i + chunk_size]` batching of the record list.  The fuel
argument of the auxiliary function is only a termination device; it never
runs out when `chunk > 0`. -/
def batchesAux (chunk : Nat) : Nat → List Record → List (List Record)
  | 0, _ => []
  | _, [] => []
  | fuel + 1, l => l.take chunk :: batchesAux chunk fuel (l.drop chunk)

/-- The batches written by the `store_data` loop, in order. -/
def batches (chunk : Nat) (l : List Record) : List (List Record) :=
  batchesAux chunk l.length l

/-- The database operations `store_data` performs, in program order. -/
inductive StoreStep where
  | connect
  | createTable
  | deleteRows
  | insertBatch (b : List Record)
  | closeConn

/-- Effect of one committed operation on the store. -/
def applyStep (db : DB) : StoreStep → DB
  | .connect => db
  | .createTable => ⟨some (db.persons.getD [])⟩
  | .deleteRows => ⟨some []⟩
  | .insertBatch b => ⟨some (db.persons.getD [] ++ b)⟩
  | .closeConn => db

/-- Run a list of store operations against the database, where `failAt` is
the index of the operation at which the store raises (no failure when it is
`none` or beyond the list): the operations before the failure have committed
and the rest never run. -/
def runOps (db : DB) : List StoreStep → Option Nat → DB
  | [], _ => db
  | _ :: _, some 0 => db
  | op :: rest, some (j + 1) => runOps (applyStep db op) rest (some j)
  | op :: rest, none => runOps (applyStep db op) rest none

/-- The operation list of `store_data`: connect, create the table if absent,
delete all rows, then append each batch, then close. -/
def storeOps (chunk : Nat) (data : List Record) : List StoreStep :=
  .connect :: .createTable :: .deleteRows ::
    ((batches chunk data).map .insertBatch ++ [.closeConn])

/-- `store_data`: run the operations; the surrounding `try`/`except` catches
any failure, logs it, and returns normally, leaving the rows committed so
far. -/
def store_data (chunk : Nat) (db : DB) (data : List Record) (failAt : Option Nat) : DB :=
  runOps db (storeOps chunk data) failAt

/-! ### Profiler (`profile_data`) -/

mutual

/-- Equality of Python values, as used by pandas for distinct counts. -/
def pvBeq : PyVal → PyVal → Bool
  | .str a, .str b => a == b
  | .int a, .int b => a == b
  | .dict a, .dict b => pvBeqFields a b
  | .list a, .list b => pvBeqList a b
  | _, _ => false

/-- Field-list equality component of `pvBeq`. -/
def pvBeqFields : List (PyStr × PyVal) → List (PyStr × PyVal) → Bool
  | [], [] => true
  | (k, v) :: r, (k2, v2) :: r2 => k == k2 && pvBeq v v2 && pvBeqFields r r2
  | _, _ => false

/-- Element-list equality component of `pvBeq`. -/
def pvBeqList : List PyVal → List PyVal → Bool
  | [], [] => true
  | v :: r, v2 :: r2 => pvBeq v v2 && pvBeqList r r2
  | _, _ => false

end

/-- The columns of `pd.DataFrame(data)`: the union of the records' keys in
first-appearance order. -/
def dfColumns (data : List Record) : List PyStr :=
  (data.flatMap (fun r => r.map (fun p => p.1))).foldl
    (fun acc k => if acc.contains k then acc else acc ++ [k]) []

/-- The non-missing values of one column, in row order (rows lacking the
column hold `NaN`, which pandas excludes from `nunique` and `value_counts`). -/
def colValues (data : List Record) (c : PyStr) : List PyVal :=
  data.filterMap fun r => dictGet r c

/-- The distinct values of a list, keeping first occurrences. -/
def distinctVals (l : List PyVal) : List PyVal :=
  l.foldl (fun acc v => if acc.any (pvBeq v) then acc else acc ++ [v]) []

/-- `df[c].nunique()`. -/
def nuniqueCol (data : List Record) (c : PyStr) : Nat :=
  (distinctVals (colValues data c)).length

/-- Insert into a count-descending list, after entries of no smaller count,
so that ties keep first-encountered order. -/
def insertByCount (x : PyVal × Nat) : List (PyVal × Nat) → List (PyVal × Nat)
  | [] => [x]
  | y :: ys => if x.2 ≤ y.2 then y :: insertByCount x ys else x :: y :: ys

/-- `df[c].value_counts()`: distinct values with their frequencies, most
frequent first, ties in first-encountered order. -/
def valueCounts (data : List Record) (c : PyStr) : List (PyVal × Nat) :=
  ((distinctVals (colValues data c)).map
      (fun v => (v, ((colValues data c).filter (pvBeq v)).length))).foldr
    insertByCount []

/-- The distinct-value counts of the profile. -/
structure UniqueValues where
  city : Nat
  country : Nat
  age_group : Nat
  email_provider : Nat

/-- The aggregate profile dictionary built by `profile_data`. -/
structure Profile where
  total_records : Nat
  unique_values : UniqueValues
  most_common_countries : List (PyVal × Nat)
  age_group_distribution : List (PyVal × Nat)
  top_email_providers : List (PyVal × Nat)

/-- Result of `profile_data`: the profile, or the empty dict `{}` returned
when building the profile raised. -/
inductive ProfileResult where
  | empty
  | profile (p : Profile)

/-- `profile_data`: build the profile over the data frame; a column access
`df["city"]` (and likewise the other profiled columns) raises `KeyError`
when the frame lacks that column — in particular over the empty frame, which
has no columns at all — and the `except` clause then returns the empty
dict. -/
def profile_data (data : List Record) : ProfileResult :=
  let cols := dfColumns data
  if cols.contains kCity ∧ cols.contains kCountry ∧ cols.contains kAgeGroup ∧
      cols.contains kEmailProvider then
    .profile
      { total_records := data.length
        unique_values :=
          { city := nuniqueCol data kCity
            country := nuniqueCol data kCountry
            age_group := nuniqueCol data kAgeGroup
            email_provider := nuniqueCol data kEmailProvider }
        most_common_countries := (valueCounts data kCountry).take 5
        age_group_distribution := valueCounts data kAgeGroup
        top_email_providers := (valueCounts data kEmailProvider).take 5 }
  else .empty

/-- The tail of `process_pipeline` after the anonymizer: persist the
anonymized records (with any persistence failure caught inside `store_data`)
and then profile the same in-memory list. -/
def pipelineTail (chunk : Nat) (db : DB) (anonymized : List Record)
    (failAt : Option Nat) : DB × ProfileResult :=
  (store_data chunk db anonymized failAt, profile_data anonymized)

/-- The code points of the string of the date of the first of January 1990,
used by the specification's age-group example. -/
def cp19900101 : PyStr := [49, 57, 57, 48, 45, 48, 49, 45, 48, 49]

/-- A record as the cleaner receives it, with a mixed-case first name. -/
def c4Item : Record :=
  [(kEmail, .str [97, 64, 98, 46, 99]),
    (kFirstname, .str [109, 99, 68, 79, 78, 65, 76, 68]),
    (kLastname, .str [100, 111, 101]),
    (kBirthday, .str cp19900101),
    (kAddress, .dict [(kStreet, .str [120]), (kCity, .str [121]),
      (kCountry, .str [122])])]

/-- A person record whose email has a second `@` after the domain, yet
passes the email validator. -/
def c5Person : Record :=
  [(kId, .int 7), (kFirstname, .str [106]), (kLastname, .str [100]),
    (kEmail, .str [97, 64, 98, 46, 99, 64, 120]),
    (kBirthday, .str cp19900101), (kPhone, .str [53]),
    (kAddress, .dict [(kStreet, .str [115]), (kCity, .str [99]),
      (kCountry, .str [117])])]

/-- A well-behaved person record for the C5 witness. -/
def c5GoodPerson : Record :=
  [(kFirstname, .str [106]), (kLastname, .str [100]),
    (kEmail, .str [97, 64, 98, 46, 99]), (kBirthday, .str cp19900101),
    (kAddress, .dict [(kStreet, .str [115]), (kCity, .str [99, 105]),
      (kCountry, .str [117, 115])])]

/-- The anonymizer's output on `c5GoodPerson` in the year 2024. -/
def c5GoodOut : Record :=
  [(kFirstname, .str maskTok), (kLastname, .str maskTok),
    (kEmail, .str [42, 42, 42, 42, 64, 98, 46, 99]),
    (kPhone, .str maskTok), (kBirthday, .str maskTok),
    (kGender, .str maskTok), (kStreet, .str maskTok),
    (kStreetName, .str maskTok), (kBuildingNumber, .str maskTok),
    (kCity, .str [99, 105]), (kZipcode, .str maskTok),
    (kCountry, .str [117, 115]), (kCountyCode, .str maskTok),
    (kLatitude, .str maskTok), (kLongitude, .str maskTok),
    (kWebsite, .str maskTok), (kImage, .str maskTok),
    (kAgeGroup, .str [91, 51, 48, 45, 51, 57, 93]),
    (kEmailProvider, .str [98, 46, 99])]

/-- A table state with one pre-existing row, for the C7 witness. -/
def c7Db : DB := ⟨some [[(kCity, .str [120])]]⟩

/-- Three one-field records, for the C7 witness. -/
def c7Data : List Record :=
  [[(kCity, .str [97])], [(kCity, .str [98])], [(kCity, .str [99])]]

/-! ## Dictionary lemmas -/

theorem dictGet_dictSet_self (r : Record) (k : PyStr) (v : PyVal) :
    dictGet (dictSet r k v) k = some v := by
  induction r with
  | nil => simp [dictGet, dictSet]
  | cons p rest ih =>
    obtain ⟨k2, w⟩ := p
    cases h : k2 == k with
    | true => simp [dictSet, h, dictGet]
    | false => simp [dictSet, h, dictGet, ih]

theorem dictGet_dictSet_ne (r : Record) (k k2 : PyStr) (v : PyVal)
    (h : (k == k2) = false) : dictGet (dictSet r k v) k2 = dictGet r k2 := by
  induction r with
  | nil => simp [dictGet, dictSet, h]
  | cons p rest ih =>
    obtain ⟨k3, w⟩ := p
    cases h3 : k3 == k with
    | true =>
      have : k3 = k := by simpa using h3
      subst this
      simp [dictSet, h3, dictGet, h]
    | false => simp [dictSet, h3, dictGet, ih]

theorem dictSet_self_of_get (r : Record) (k : PyStr) (v : PyVal)
    (h : dictGet r k = some v) : dictSet r k v = r := by
  induction r with
  | nil => simp [dictGet] at h
  | cons p rest ih =>
    obtain ⟨k2, w⟩ := p
    cases h2 : k2 == k with
    | true =>
      have hk : k2 = k := by simpa using h2
      subst hk
      simp [dictGet, h2] at h
      simp [dictSet, h2, h]
    | false =>
      simp [dictGet, h2] at h
      simp [dictSet, h2, ih h]

/-! ## C10 — profiling the empty record set -/

/-- C10: on the empty list of anonymized records, `profile_data` returns the
empty dict (its failure value) and not a profile with `total_records = 0`,
because building the profile over the empty, column-less data frame raises
and the exception handler returns the empty dict. -/
theorem c10_profile_data_empty :
    profile_data [] = .empty ∧ ∀ p, profile_data [] ≠ .profile p := by
  refine ⟨rfl, fun p h => ?_⟩
  rw [show profile_data [] = .empty from rfl] at h
  exact ProfileResult.noConfusion h

/-! ## C2 — the retrieval client boundary -/

/-- C2 counterexample: on a well-received JSON object body with no `data`
field, `fetch_data_chunk` does not return the empty-list failure signal but
raises `KeyError` to its caller, refuting the claim that it never raises. -/
theorem c2_counterexample :
    fetch_data_chunk (.resp 200 (some (.dict []))) =
      .error (.keyError kData) := rfl

/-- C2 amended: `fetch_data_chunk` returns the empty-list failure signal on
every transport-level failure (a `RequestException` after retries, an error
status, or a non-JSON body) and the `data` field on a JSON object body that
has one, but it raises (`KeyError`/`TypeError`) to its caller exactly when a
well-received JSON body is not an object with a `data` field; in
`fetch_data` the catch around `future.result()` then makes such a chunk
contribute zero records. -/
theorem c2_fetch_data_chunk (r : HttpResult) :
    (isCaughtFailure r = true → fetch_data_chunk r = .ok (.list [])) ∧
    ((∃ e, fetch_data_chunk r = .error e) ↔ hasBadDataShape r = true) ∧
    (∀ status fields d, r = .resp status (some (.dict fields)) →
      ¬(400 ≤ status ∧ status < 600) → dictGet fields kData = some d →
      fetch_data_chunk r = .ok d) := by
  cases r with
  | exn =>
    refine ⟨fun _ => rfl, ?_, fun status fields d h => by cases h⟩
    simp [fetch_data_chunk, hasBadDataShape]
  | resp status body =>
    by_cases hs : 400 ≤ status ∧ status < 600
    · refine ⟨fun _ => by simp [fetch_data_chunk, hs], ?_, ?_⟩
      · simp [fetch_data_chunk, hs, hasBadDataShape]
      · intro s f d he hs2 hget
        injection he with h1 h2
        subst h1
        exact absurd hs hs2
    · cases body with
      | none =>
        refine ⟨fun _ => by simp [fetch_data_chunk, hs], ?_,
          fun s f d he => by injection he with h1 h2; cases h2⟩
        simp [fetch_data_chunk, hs, hasBadDataShape]
      | some j =>
        cases j with
        | dict fields =>
          refine ⟨?_, ?_, ?_⟩
          · intro hc
            simp [isCaughtFailure, hs] at hc
          · cases hd : dictGet fields kData with
            | none => simp [fetch_data_chunk, hs, hd, hasBadDataShape]
            | some d => simp [fetch_data_chunk, hs, hd, hasBadDataShape]
          · intro s f d he hs2 hget
            injection he with h1 h2
            subst h1
            injection h2 with h3
            injection h3 with h4
            subst h4
            simp [fetch_data_chunk, hs, hget]
        | str s =>
          refine ⟨?_, ?_, fun s2 f d he => by
            injection he with h1 h2; injection h2 with h3; cases h3⟩
          · intro hc
            simp [isCaughtFailure, hs] at hc
          · simp [fetch_data_chunk, hs, hasBadDataShape]
        | int n =>
          refine ⟨?_, ?_, fun s2 f d he => by
            injection he with h1 h2; injection h2 with h3; cases h3⟩
          · intro hc
            simp [isCaughtFailure, hs] at hc
          · simp [fetch_data_chunk, hs, hasBadDataShape]
        | list l =>
          refine ⟨?_, ?_, fun s2 f d he => by
            injection he with h1 h2; injection h2 with h3; cases h3⟩
          · intro hc
            simp [isCaughtFailure, hs] at hc
          · simp [fetch_data_chunk, hs, hasBadDataShape]

/-- C2 amended, witness: a connection-level failure after retries returns
the empty-list failure signal. -/
theorem c2_fetch_data_chunk_witness :
    isCaughtFailure .exn = true ∧ fetch_data_chunk .exn = .ok (.list []) :=
  ⟨rfl, (c2_fetch_data_chunk .exn).1 rfl⟩

/-! ## C8 — age-group derivation -/

/-- C8: for every birthday whose `strptime` parse yields birth year `B`,
`calculate_age_group` run with current year `Y` returns the bucket
`[D-D+9]` with `D = floor((Y - B) / 10) * 10`; in particular on the date
string of the first of January 1990 it does so with `B = 1990`. -/
theorem c8_calculate_age_group (nowYear : Int) (bday : PyStr) (y m d : Nat)
    (h : strptimeYmd bday = some (y, m, d)) :
    calculate_age_group nowYear bday =
      some (ageGroupString ((nowYear - (y : Int)).fdiv 10 * 10)) ∧
    calculate_age_group nowYear cp19900101 =
      some (ageGroupString ((nowYear - 1990).fdiv 10 * 10)) := by
  constructor
  · simp [calculate_age_group, h, ageGroupString]
  · have h2 : strptimeYmd cp19900101 = some (1990, 1, 1) := by decide
    simp [calculate_age_group, h2, ageGroupString]

/-- C8 witness: in the year 2024 a 1990 birthday lands in the decade bucket
of the thirties. -/
theorem c8_calculate_age_group_witness :
    strptimeYmd cp19900101 = some (1990, 1, 1) ∧
    calculate_age_group 2024 cp19900101 = some (ageGroupString 30) := by
  refine ⟨by decide, ?_⟩
  have h :=
    (c8_calculate_age_group 2024 cp19900101 1990 1 1 (by decide)).2
  rw [show ((2024 : Int) - 1990).fdiv 10 * 10 = 30 from by decide] at h
  exact h

/-! ## Case-mapping lemmas -/

theorem lowerCp_idem (c : Nat) : lowerCp (lowerCp c) = lowerCp c := by
  unfold lowerCp
  split_ifs <;> omega

theorem upperCp_idem (c : Nat) : upperCp (upperCp c) = upperCp c := by
  unfold upperCp
  split_ifs <;> omega

theorem pyLower_idem (s : PyStr) : pyLower (pyLower s) = pyLower s := by
  simp only [pyLower, List.map_map]
  exact List.map_congr_left fun a _ => lowerCp_idem a

theorem pyCapitalize_idem (s : PyStr) :
    pyCapitalize (pyCapitalize s) = pyCapitalize s := by
  cases s with
  | nil => rfl
  | cons c rest =>
    simp only [pyCapitalize, upperCp_idem, List.map_map]
    exact congrArg _ (List.map_congr_left fun a _ => lowerCp_idem a)

theorem stripNonDigits_idem (s : PyStr) :
    stripNonDigits (stripNonDigits s) = stripNonDigits s := by
  simp [stripNonDigits, List.filter_filter]

/-! ## Cleaner lemmas -/

/-- Anatomy of a successful cleaning: the cleaned record is the source record
with the email lower-cased, the names capitalized, and the phone (when
present, necessarily as a string) stripped to digits. -/
theorem cleanItem_eq (item out : Record) (h : cleanItem item = some out) :
    ∃ e fn ln,
      dictGet item kEmail = some (.str e) ∧
      dictGet item kFirstname = some (.str fn) ∧
      dictGet item kLastname = some (.str ln) ∧
      ((dictGet item kPhone = none ∧
          out =
            dictSet (dictSet (dictSet item kEmail (.str (pyLower e)))
                kFirstname (.str (pyCapitalize fn)))
              kLastname (.str (pyCapitalize ln))) ∨
        (∃ p, dictGet item kPhone = some (.str p) ∧
          out =
            dictSet
              (dictSet (dictSet (dictSet item kEmail (.str (pyLower e)))
                  kFirstname (.str (pyCapitalize fn)))
                kLastname (.str (pyCapitalize ln)))
              kPhone (.str (stripNonDigits p)))) := by
  unfold cleanItem at h
  cases he : dictGet item kEmail with
  | none => simp [he] at h
  | some ve =>
    cases ve with
    | int n => simp [he] at h
    | dict f => simp [he] at h
    | list l => simp [he] at h
    | str e =>
      simp only [he] at h
      cases hfn : dictGet item kFirstname with
      | none => simp [hfn] at h
      | some vf =>
        cases vf with
        | int n => simp [hfn] at h
        | dict f => simp [hfn] at h
        | list l => simp [hfn] at h
        | str fn =>
          simp only [hfn] at h
          cases hln : dictGet item kLastname with
          | none => simp [hln] at h
          | some vl =>
            cases vl with
            | int n => simp [hln] at h
            | dict f => simp [hln] at h
            | list l => simp [hln] at h
            | str ln =>
              simp only [hln] at h
              refine ⟨e, fn, ln, rfl, rfl, rfl, ?_⟩
              have hgp :
                  dictGet
                      (dictSet (dictSet (dictSet item kEmail (.str (pyLower e)))
                          kFirstname (.str (pyCapitalize fn)))
                        kLastname (.str (pyCapitalize ln))) kPhone =
                    dictGet item kPhone := by
                rw [dictGet_dictSet_ne _ _ _ _ (by decide),
                  dictGet_dictSet_ne _ _ _ _ (by decide),
                  dictGet_dictSet_ne _ _ _ _ (by decide)]
              rw [hgp] at h
              cases hp : dictGet item kPhone with
              | none =>
                simp only [hp] at h
                injection h with h2
                exact Or.inl ⟨rfl, h2.symm⟩
              | some vp =>
                cases vp with
                | int n => simp [hp] at h
                | dict f => simp [hp] at h
                | list l => simp [hp] at h
                | str p =>
                  simp only [hp] at h
                  injection h with h2
                  exact Or.inr ⟨p, rfl, h2.symm⟩

/-- The fields of a cleaned record. -/
theorem cleanItem_fields (item out : Record) (h : cleanItem item = some out) :
    ∃ e fn ln,
      dictGet item kEmail = some (.str e) ∧
      dictGet item kFirstname = some (.str fn) ∧
      dictGet item kLastname = some (.str ln) ∧
      dictGet out kEmail = some (.str (pyLower e)) ∧
      dictGet out kFirstname = some (.str (pyCapitalize fn)) ∧
      dictGet out kLastname = some (.str (pyCapitalize ln)) ∧
      ((dictGet item kPhone = none ∧ dictGet out kPhone = none) ∨
        ∃ p, dictGet item kPhone = some (.str p) ∧
          dictGet out kPhone = some (.str (stripNonDigits p))) := by
  obtain ⟨e, fn, ln, he, hfn, hln, hrest⟩ := cleanItem_eq item out h
  refine ⟨e, fn, ln, he, hfn, hln, ?_⟩
  rcases hrest with ⟨hp, hout⟩ | ⟨p, hp, hout⟩ <;> subst hout
  · refine ⟨?_, ?_, ?_, Or.inl ⟨hp, ?_⟩⟩
    · rw [dictGet_dictSet_ne _ _ _ _ (by decide),
        dictGet_dictSet_ne _ _ _ _ (by decide), dictGet_dictSet_self]
    · rw [dictGet_dictSet_ne _ _ _ _ (by decide), dictGet_dictSet_self]
    · rw [dictGet_dictSet_self]
    · rw [dictGet_dictSet_ne _ _ _ _ (by decide),
        dictGet_dictSet_ne _ _ _ _ (by decide),
        dictGet_dictSet_ne _ _ _ _ (by decide)]
      exact hp
  · refine ⟨?_, ?_, ?_, Or.inr ⟨p, hp, ?_⟩⟩
    · rw [dictGet_dictSet_ne _ _ _ _ (by decide),
        dictGet_dictSet_ne _ _ _ _ (by decide),
        dictGet_dictSet_ne _ _ _ _ (by decide), dictGet_dictSet_self]
    · rw [dictGet_dictSet_ne _ _ _ _ (by decide),
        dictGet_dictSet_ne _ _ _ _ (by decide), dictGet_dictSet_self]
    · rw [dictGet_dictSet_ne _ _ _ _ (by decide), dictGet_dictSet_self]
    · rw [dictGet_dictSet_self]

/-! ## C4 — field normalization of the cleaner -/

/-- C4 counterexample: on the first name `mcDONALD` the cleaner produces
`Mcdonald` — `str.capitalize` lower-cases every character after the first —
and not the `McDONALD` the claim's leave-the-rest-unchanged reading
predicts. -/
theorem c4_counterexample :
    dictGet ((clean_data [c4Item]).headD []) kFirstname =
      some (.str [77, 99, 100, 111, 110, 97, 108, 100]) ∧
    ([77, 99, 100, 111, 110, 97, 108, 100] : List Nat) ≠
      [77, 99, 68, 79, 78, 65, 76, 68] :=
  ⟨rfl, by decide⟩

/-- C4 amended: for every record the cleaner accepts, the email is
lower-cased, the first character of the first and last name is upper-cased
and every remaining character of those fields is lower-cased, and a present
phone field keeps exactly its digits. -/
theorem c4_clean_fields (item out : Record) (h : cleanItem item = some out) :
    (∀ e, dictGet item kEmail = some (.str e) →
      dictGet out kEmail = some (.str (pyLower e))) ∧
    (∀ c cs, dictGet item kFirstname = some (.str (c :: cs)) →
      dictGet out kFirstname = some (.str (upperCp c :: cs.map lowerCp))) ∧
    (∀ c cs, dictGet item kLastname = some (.str (c :: cs)) →
      dictGet out kLastname = some (.str (upperCp c :: cs.map lowerCp))) ∧
    (∀ p, dictGet item kPhone = some (.str p) →
      dictGet out kPhone = some (.str (p.filter isDigitCp))) ∧
    (dictGet item kPhone = none → dictGet out kPhone = none) := by
  obtain ⟨e, fn, ln, he, hfn, hln, hoe, hofn, holn, hph⟩ :=
    cleanItem_fields item out h
  refine ⟨?_, ?_, ?_, ?_, ?_⟩
  · intro e2 he2
    rw [he] at he2
    injection he2 with he3
    injection he3 with he4
    rw [hoe, he4]
  · intro c cs hc
    rw [hfn] at hc
    injection hc with hc2
    injection hc2 with hc3
    rw [hofn, hc3]
    rfl
  · intro c cs hc
    rw [hln] at hc
    injection hc with hc2
    injection hc2 with hc3
    rw [holn, hc3]
    rfl
  · intro p hp
    rcases hph with ⟨hnone, _⟩ | ⟨p2, hp2, hout⟩
    · rw [hp] at hnone
      cases hnone
    · rw [hp] at hp2
      injection hp2 with h2
      injection h2 with h3
      rw [hout, h3]
      rfl
  · intro hp
    rcases hph with ⟨_, hnone⟩ | ⟨p2, hp2, _⟩
    · exact hnone
    · rw [hp] at hp2
      cases hp2

/-- C4 amended, witness: the cleaner on the concrete record maps
`a@b.c`, `mcDONALD`, `doe` as described. -/
theorem c4_clean_fields_witness :
    cleanItem c4Item =
      some
        [(kEmail, .str [97, 64, 98, 46, 99]),
          (kFirstname, .str [77, 99, 100, 111, 110, 97, 108, 100]),
          (kLastname, .str [68, 111, 101]),
          (kBirthday, .str cp19900101),
          (kAddress, .dict [(kStreet, .str [120]), (kCity, .str [121]),
            (kCountry, .str [122])])] ∧
    dictGet c4Item kFirstname =
      some (.str (109 :: [99, 68, 79, 78, 65, 76, 68])) ∧
    dictGet
        [(kEmail, PyVal.str [97, 64, 98, 46, 99]),
          (kFirstname, .str [77, 99, 100, 111, 110, 97, 108, 100]),
          (kLastname, .str [68, 111, 101]),
          (kBirthday, .str cp19900101),
          (kAddress, .dict [(kStreet, .str [120]), (kCity, .str [121]),
            (kCountry, .str [122])])] kFirstname =
      some (.str (upperCp 109 :: [99, 68, 79, 78, 65, 76, 68].map lowerCp)) := by
  refine ⟨rfl, rfl, ?_⟩
  exact (c4_clean_fields c4Item _ rfl).2.1 109 [99, 68, 79, 78, 65, 76, 68] rfl

/-! ## C9 — idempotence of the cleaner -/

/-- Cleaning a record the cleaner has already cleaned changes nothing. -/
theorem cleanItem_idem (item out : Record) (h : cleanItem item = some out) :
    cleanItem out = some out := by
  obtain ⟨e, fn, ln, _, _, _, hoe, hofn, holn, hph⟩ :=
    cleanItem_fields item out h
  have hset1 : dictSet out kEmail (.str (pyLower (pyLower e))) = out := by
    rw [pyLower_idem]
    exact dictSet_self_of_get _ _ _ hoe
  have hset2 : dictSet out kFirstname (.str (pyCapitalize (pyCapitalize fn))) = out := by
    rw [pyCapitalize_idem]
    exact dictSet_self_of_get _ _ _ hofn
  have hset3 : dictSet out kLastname (.str (pyCapitalize (pyCapitalize ln))) = out := by
    rw [pyCapitalize_idem]
    exact dictSet_self_of_get _ _ _ holn
  unfold cleanItem
  rw [hoe, hofn, holn]
  simp only [hset1, hset2, hset3]
  rcases hph with ⟨_, hnone⟩ | ⟨p, _, hsome⟩
  · rw [hnone]
  · rw [hsome]
    have hset4 :
        dictSet out kPhone (.str (stripNonDigits (stripNonDigits p))) = out := by
      rw [stripNonDigits_idem]
      exact dictSet_self_of_get _ _ _ hsome
    simp only [hset4]

/-- A list each of whose members cleans to itself is fixed by `clean_data`. -/
theorem filterMap_cleanItem_fixed (l : List Record)
    (h : ∀ y ∈ l, cleanItem y = some y) : l.filterMap cleanItem = l := by
  induction l with
  | nil => rfl
  | cons a rest ih =>
    rw [List.filterMap_cons, h a (by simp)]
    rw [ih fun y hy => h y (by simp [hy])]

/-- C9: the cleaner is idempotent — cleaning the output of `clean_data`
again yields the same list of records. -/
theorem c9_clean_data_idem (data : List Record) :
    clean_data (clean_data data) = clean_data data := by
  unfold clean_data
  apply filterMap_cleanItem_fixed
  intro y hy
  obtain ⟨x, _, hx⟩ := List.mem_filterMap.mp hy
  exact cleanItem_idem x y hx

/-! ## C1 — deduplication by canonical key -/

theorem containsAppend (a b : List CanonKey) (x : CanonKey) :
    (a ++ b).contains x = (a.contains x || b.contains x) := by
  induction a with
  | nil => rfl
  | cons h t ih => simp [List.contains_cons, ih, Bool.or_assoc]

/-- Sets of seen keys with the same membership select the same records. -/
theorem uniqueFrom_congr (seen1 seen2 : List CanonKey)
    (h : ∀ x, seen1.contains x = seen2.contains x) (l : List Record) :
    uniqueFrom seen1 l = uniqueFrom seen2 l := by
  unfold uniqueFrom
  congr 1
  funext i
  cases hg : l.get? i with
  | none => rfl
  | some r =>
    cases hck : canonicalKey r with
    | none => simp only [hck]
    | some k => simp only [hck, containsAppend, h k]

/-- Sets of seen keys with the same membership reject the same records. -/
theorem dupFrom_congr (seen1 seen2 : List CanonKey)
    (h : ∀ x, seen1.contains x = seen2.contains x) (l : List Record) :
    dupFrom seen1 l = dupFrom seen2 l := by
  unfold dupFrom
  congr 1
  funext i
  cases hg : l.get? i with
  | none => rfl
  | some r =>
    cases hck : canonicalKey r with
    | none => simp only [hck]
    | some k => simp only [hck, containsAppend, h k]

theorem prevKeys_cons_succ (r : Record) (rest : List Record) (i : Nat) :
    prevKeys (r :: rest) (i + 1) =
      (match canonicalKey r with
        | some k0 => k0 :: prevKeys rest i
        | none => prevKeys rest i) := by
  unfold prevKeys
  rw [List.take_succ_cons, List.filterMap_cons]
  cases canonicalKey r <;> rfl

theorem uniqueFrom_cons (seen : List CanonKey) (r : Record) (rest : List Record) :
    uniqueFrom seen (r :: rest) =
      (match canonicalKey r with
        | none => uniqueFrom seen rest
        | some k =>
          if seen.contains k then uniqueFrom (k :: seen) rest
          else r :: uniqueFrom (k :: seen) rest) := by
  unfold uniqueFrom
  rw [List.length_cons, List.range_succ_eq_map, List.filterMap_cons,
    List.filterMap_map]
  have htail :
      (List.range rest.length).filterMap
          ((fun i =>
            match (r :: rest).get? i with
            | some q =>
              match canonicalKey q with
              | some k =>
                if (seen ++ prevKeys (r :: rest) i).contains k then none
                else some q
              | none => none
            | none => none) ∘ Nat.succ) =
        (List.range rest.length).filterMap fun i =>
          match rest.get? i with
          | some q =>
            match canonicalKey q with
            | some k =>
              if ((match canonicalKey r with
                    | some k0 => k0 :: seen
                    | none => seen) ++ prevKeys rest i).contains k then none
              else some q
            | none => none
          | none => none := by
    congr 1
    funext i
    show
      (match (r :: rest).get? (i + 1) with
        | some q =>
          match canonicalKey q with
          | some k =>
            if (seen ++ prevKeys (r :: rest) (i + 1)).contains k then none
            else some q
          | none => none
        | none => none) = _
    rw [List.get?_cons_succ, prevKeys_cons_succ]
    cases hg : rest.get? i with
    | none => cases canonicalKey r <;> rfl
    | some q =>
      cases hck : canonicalKey q with
      | none => cases canonicalKey r <;> simp only [hck]
      | some k =>
        cases hck0 : canonicalKey r with
        | none => simp only [hck]
        | some k0 =>
          simp only [hck, containsAppend, List.contains_cons]
          cases k == k0 <;> cases seen.contains k <;>
            cases (prevKeys rest i).contains k <;> rfl
  rw [htail]
  cases hck0 : canonicalKey r with
  | none => simp only [List.get?_cons_zero, hck0]
  | some k0 =>
    have h0 : prevKeys (r :: rest) 0 = [] := rfl
    simp only [h0, List.append_nil]
    cases hs : seen.contains k0 with
    | true => simp only [List.get?_cons_zero, hck0, hs]; rfl
    | false => simp only [List.get?_cons_zero, hck0, hs]; rfl

theorem dupFrom_cons (seen : List CanonKey) (r : Record) (rest : List Record) :
    dupFrom seen (r :: rest) =
      (match canonicalKey r with
        | none => dupFrom seen rest
        | some k =>
          if seen.contains k then r :: dupFrom (k :: seen) rest
          else dupFrom (k :: seen) rest) := by
  unfold dupFrom
  rw [List.length_cons, List.range_succ_eq_map, List.filterMap_cons,
    List.filterMap_map]
  have htail :
      (List.range rest.length).filterMap
          ((fun i =>
            match (r :: rest).get? i with
            | some q =>
              match canonicalKey q with
              | some k =>
                if (seen ++ prevKeys (r :: rest) i).contains k then some q
                else none
              | none => none
            | none => none) ∘ Nat.succ) =
        (List.range rest.length).filterMap fun i =>
          match rest.get? i with
          | some q =>
            match canonicalKey q with
            | some k =>
              if ((match canonicalKey r with
                    | some k0 => k0 :: seen
                    | none => seen) ++ prevKeys rest i).contains k then some q
              else none
            | none => none
          | none => none := by
    congr 1
    funext i
    show
      (match (r :: rest).get? (i + 1) with
        | some q =>
          match canonicalKey q with
          | some k =>
            if (seen ++ prevKeys (r :: rest) (i + 1)).contains k then some q
            else none
          | none => none
        | none => none) = _
    rw [List.get?_cons_succ, prevKeys_cons_succ]
    cases hg : rest.get? i with
    | none => cases canonicalKey r <;> rfl
    | some q =>
      cases hck : canonicalKey q with
      | none => cases canonicalKey r <;> simp only [hck]
      | some k =>
        cases hck0 : canonicalKey r with
        | none => simp only [hck]
        | some k0 =>
          simp only [hck, containsAppend, List.contains_cons]
          cases k == k0 <;> cases seen.contains k <;>
            cases (prevKeys rest i).contains k <;> rfl
  rw [htail]
  cases hck0 : canonicalKey r with
  | none => simp only [List.get?_cons_zero, hck0]
  | some k0 =>
    have h0 : prevKeys (r :: rest) 0 = [] := rfl
    simp only [h0, List.append_nil]
    cases hs : seen.contains k0 with
    | true => simp only [List.get?_cons_zero, hck0, hs]; rfl
    | false => simp only [List.get?_cons_zero, hck0, hs]; rfl

/-- The loop with an initial seen set computes exactly the records that are
first (respectively repeated) occurrences relative to that set. -/
theorem detectAux_eq (data : List Record) : ∀ seen : List CanonKey,
    detectAux seen data = (uniqueFrom seen data, dupFrom seen data) := by
  induction data with
  | nil => intro seen; rfl
  | cons r rest ih =>
    intro seen
    rw [uniqueFrom_cons, dupFrom_cons]
    show
      (match canonicalKey r with
        | none => detectAux seen rest
        | some k =>
          if seen.contains k then
            let p := detectAux seen rest
            (p.1, r :: p.2)
          else
            let p := detectAux (k :: seen) rest
            (r :: p.1, p.2)) = _
    cases hck : canonicalKey r with
    | none => exact ih seen
    | some k =>
      cases hs : seen.contains k with
      | true =>
        have hmem : ∀ x, (k :: seen).contains x = seen.contains x := by
          intro x
          rw [List.contains_cons]
          cases hx : x == k with
          | false => rw [Bool.false_or]
          | true =>
            have hxk : x = k := by simpa using hx
            subst hxk
            rw [Bool.true_or, hs]
        simp only [ih seen, ih (k :: seen),
          uniqueFrom_congr (k :: seen) seen hmem rest,
          dupFrom_congr (k :: seen) seen hmem rest, hs]
        rfl
      | false =>
        simp only [ih seen, ih (k :: seen), hs]
        rfl

theorem dictGet_setIdValue_address (item : Record) (v : PyVal) :
    dictGet (setIdValue item v) kAddress = dictGet item kAddress := by
  induction item with
  | nil => rfl
  | cons p rest ih =>
    obtain ⟨k, w⟩ := p
    cases hk : k == kId with
    | true =>
      have hkk : k = kId := by simpa using hk
      subst hkk
      simp [setIdValue, hk, dictGet, ih, show (kId == kAddress) = false from rfl]
    | false => simp [setIdValue, hk, dictGet, ih]

theorem filter_setIdValue (item : Record) (v : PyVal) :
    (setIdValue item v).filter (fun p => !(p.1 == kId) && !(p.1 == kAddress)) =
      item.filter (fun p => !(p.1 == kId) && !(p.1 == kAddress)) := by
  induction item with
  | nil => rfl
  | cons p rest ih =>
    obtain ⟨k, w⟩ := p
    cases hk : k == kId with
    | true => simp [setIdValue, hk, List.filter_cons, ih]
    | false => simp [setIdValue, hk, List.filter_cons, ih]

/-- Replacing the `id` value leaves the canonical key unchanged. -/
theorem canonicalKey_setIdValue (item : Record) (v : PyVal) :
    canonicalKey (setIdValue item v) = canonicalKey item := by
  unfold canonicalKey
  rw [dictGet_setIdValue_address]
  cases dictGet item kAddress with
  | none => rfl
  | some a =>
    cases a with
    | dict addr => rw [filter_setIdValue]
    | str s => rfl
    | int n => rfl
    | list l => rfl

/-- C1: `detect_duplicates` sends a record whose canonical key is defined and
unseen to the unique output, sends every later record with an equal key to
the duplicate output, drops records whose canonicalization raises from both
outputs — and the key, hence this partition, ignores the `id` value. -/
theorem c1_detect_duplicates (data : List Record) :
    detect_duplicates data = (firstOccurrences data, laterOccurrences data) ∧
    ∀ (item : Record) (v : PyVal),
      canonicalKey (setIdValue item v) = canonicalKey item := by
  exact ⟨detectAux_eq data [], fun item v => canonicalKey_setIdValue item v⟩

/-! ## C6 — chunked fetching -/

/-- Decomposition of the ceiling division defining `numChunks`. -/
theorem numChunks_mul_decomp (total chunk : Nat) (h2 : 0 < chunk) :
    ∃ r, r < chunk ∧ chunk * numChunks total chunk + r = total + chunk - 1 :=
  ⟨(total + chunk - 1) % chunk, Nat.mod_lt _ h2,
    Nat.div_add_mod (total + chunk - 1) chunk⟩

/-- The dispatched chunk count is the ceiling of `total / chunk`:
characterized by the two bounds, for positive inputs. -/
theorem numChunks_bounds (total chunk : Nat) (h1 : 0 < total) (h2 : 0 < chunk) :
    total ≤ chunk * numChunks total chunk ∧
    chunk * (numChunks total chunk - 1) < total := by
  obtain ⟨r, hr, hq⟩ := numChunks_mul_decomp total chunk h2
  constructor
  · generalize hP : chunk * numChunks total chunk = P at hq ⊢
    omega
  · obtain ⟨m, hm⟩ : ∃ m, numChunks total chunk = m + 1 := by
      rcases Nat.eq_zero_or_pos (numChunks total chunk) with h0 | hpos
      · rw [h0, Nat.mul_zero] at hq
        omega
      · exact ⟨numChunks total chunk - 1, by omega⟩
    rw [hm] at hq ⊢
    rw [Nat.mul_succ] at hq
    simp only [Nat.add_sub_cancel]
    generalize hP : chunk * m = P at hq ⊢
    omega

/-- Every chunk before the last requests exactly `chunk` records. -/
theorem chunkQuantity_of_not_last (total chunk i : Nat) (h2 : 0 < chunk)
    (hi : i + 1 < numChunks total chunk) :
    chunkQuantity total chunk i = chunk := by
  obtain ⟨r, hr, hq⟩ := numChunks_mul_decomp total chunk h2
  have h3 : chunk * (i + 2) ≤ chunk * numChunks total chunk :=
    Nat.mul_le_mul_left _ hi
  rw [show chunk * (i + 2) = chunk * i + chunk * 2 from by ring] at h3
  unfold chunkQuantity
  rw [Nat.mul_comm i chunk, Nat.min_def]
  generalize hQ : chunk * numChunks total chunk = Q at h3 hq
  generalize hP : chunk * i = P at h3 ⊢
  split_ifs with hc
  · rfl
  · omega

/-- The last chunk requests the remainder. -/
theorem chunkQuantity_last (total chunk : Nat) (h1 : 0 < total) (h2 : 0 < chunk) :
    chunkQuantity total chunk (numChunks total chunk - 1) =
      total - (numChunks total chunk - 1) * chunk := by
  obtain ⟨r, hr, hq⟩ := numChunks_mul_decomp total chunk h2
  obtain ⟨m, hm⟩ : ∃ m, numChunks total chunk = m + 1 := by
    rcases Nat.eq_zero_or_pos (numChunks total chunk) with h0 | hpos
    · rw [h0, Nat.mul_zero] at hq
      omega
    · exact ⟨numChunks total chunk - 1, by omega⟩
  rw [hm]
  simp only [Nat.add_sub_cancel]
  unfold chunkQuantity
  rw [Nat.mul_comm m chunk]
  rw [hm, Nat.mul_succ] at hq
  rw [Nat.min_def]
  generalize hP : chunk * m = P at hq ⊢
  split_ifs with hc
  · omega
  · rfl

/-- The requested quantities sum to the requested total. -/
theorem chunkQuantities_sum (chunk : Nat) (h2 : 0 < chunk) :
    ∀ total, (chunkQuantities total chunk).sum = total := by
  intro total
  induction total using Nat.strong_induction_on with
  | _ total ih =>
    rcases Nat.lt_or_ge chunk total with hlt | hge
    · have hn : numChunks total chunk = numChunks (total - chunk) chunk + 1 := by
        unfold numChunks
        have hsplit : total + chunk - 1 = (total - chunk + chunk - 1) + chunk := by
          omega
        rw [hsplit, Nat.add_div_right _ h2]
      have hq0 : chunkQuantity total chunk 0 = chunk := by
        unfold chunkQuantity
        rw [Nat.zero_mul, Nat.sub_zero, Nat.min_def]
        split_ifs with hc
        · rfl
        · omega
      have hshift : ∀ i, chunkQuantity total chunk (i + 1) =
          chunkQuantity (total - chunk) chunk i := by
        intro i
        unfold chunkQuantity
        have harg : total - (i + 1) * chunk = total - chunk - i * chunk := by
          rw [show (i + 1) * chunk = i * chunk + chunk from by ring]
          generalize i * chunk = P
          omega
        rw [harg]
      have hkey : chunkQuantities total chunk =
          chunk :: chunkQuantities (total - chunk) chunk := by
        unfold chunkQuantities
        rw [hn, List.range_succ_eq_map, List.map_cons, hq0, List.map_map]
        congr 1
        exact List.map_congr_left fun i _ => hshift i
      rw [hkey, List.sum_cons, ih (total - chunk) (by omega)]
      omega
    · rcases Nat.eq_zero_or_pos total with h0 | hpos
      · subst h0
        have hn : numChunks 0 chunk = 0 := by
          unfold numChunks
          exact Nat.div_eq_of_lt (by omega)
        simp [chunkQuantities, hn]
      · have hn : numChunks total chunk = 1 := by
          obtain ⟨r, hr, hq⟩ := numChunks_mul_decomp total chunk h2
          cases hnn : numChunks total chunk with
          | zero =>
            rw [hnn, Nat.mul_zero] at hq
            omega
          | succ n1 =>
            cases n1 with
            | zero => rfl
            | succ n2 =>
              rw [hnn] at hq
              rw [show chunk * (n2 + 1 + 1) = chunk * n2 + chunk + chunk from
                by ring] at hq
              generalize hP : chunk * n2 = P at hq
              omega
        have hq0 : chunkQuantity total chunk 0 = total := by
          unfold chunkQuantity
          rw [Nat.zero_mul, Nat.sub_zero, Nat.min_def]
          split_ifs with hc
          · omega
          · rfl
        unfold chunkQuantities
        rw [hn, show List.range 1 = [0] from rfl]
        simp [hq0]

/-- C6: with positive total and chunk size, `fetch_data` dispatches exactly
the ceiling number of chunk requests, all of quantity `chunk` except the
last, which carries the remainder, summing to the total; and whatever the
completion order of the workers, the aggregated result is the concatenation
of all chunks' contributions — a failed chunk contributing zero records —
so its length is the sum of the per-chunk contributions. -/
theorem c6_fetch_data (total chunk : Nat) (h1 : 0 < total) (h2 : 0 < chunk) :
    (chunkQuantities total chunk).length = numChunks total chunk ∧
    total ≤ chunk * numChunks total chunk ∧
    chunk * (numChunks total chunk - 1) < total ∧
    (∀ i, i + 1 < numChunks total chunk → chunkQuantity total chunk i = chunk) ∧
    chunkQuantity total chunk (numChunks total chunk - 1) =
      total - (numChunks total chunk - 1) * chunk ∧
    (chunkQuantities total chunk).sum = total ∧
    ∀ (results : Nat → List Record) (order : List Nat),
      order.Perm (List.range (numChunks total chunk)) →
      (fetch_data results order).Perm
          (((List.range (numChunks total chunk)).map results).flatten) ∧
      (fetch_data results order).length =
        ((List.range (numChunks total chunk)).map
            fun i => (results i).length).sum := by
  obtain ⟨hub, hlb⟩ := numChunks_bounds total chunk h1 h2
  refine ⟨by simp [chunkQuantities], hub, hlb,
    fun i hi => chunkQuantity_of_not_last total chunk i h2 hi,
    chunkQuantity_last total chunk h1 h2,
    chunkQuantities_sum chunk h2 total, ?_⟩
  intro results order hperm
  constructor
  · exact (hperm.map results).flatten
  · rw [fetch_data, List.length_flatten, List.map_map]
    exact (hperm.map fun i => (results i).length).sum_eq

/-- C6 witness: with a total of one hundred and chunks of fifty, two chunks
of fifty each are dispatched; when the first fails and the second returns
fifty records, the aggregate (in completion order second-then-first) is
those fifty records. -/
theorem c6_fetch_data_witness :
    0 < 100 ∧ 0 < 50 ∧
    (chunkQuantities 100 50).length = numChunks 100 50 ∧
    (chunkQuantities 100 50).sum = 100 ∧
    (fetch_data
        (fun i => if i = 1 then List.replicate 50 [] else [])
        [1, 0]).length =
      ((List.range (numChunks 100 50)).map
          fun i =>
            ((fun i => if i = 1 then List.replicate 50 ([] : Record) else [])
                i).length).sum := by
  have h := c6_fetch_data 100 50 (by decide) (by decide)
  refine ⟨by decide, by decide, h.1, h.2.2.2.2.2.1, ?_⟩
  exact ((h.2.2.2.2.2.2
      (fun i => if i = 1 then List.replicate 50 [] else [])
      [1, 0] (by decide)).2)

/-! ## C7 — destructive-replace persistence and the pipeline tail -/

theorem batchesAux_flatten (chunk : Nat) (h2 : 0 < chunk) :
    ∀ (fuel : Nat) (l : List Record), l.length ≤ fuel →
      (batchesAux chunk fuel l).flatten = l := by
  intro fuel
  induction fuel with
  | zero =>
    intro l hl
    have : l = [] := List.eq_nil_of_length_eq_zero (by omega)
    subst this
    rfl
  | succ n ih =>
    intro l hl
    cases l with
    | nil => rfl
    | cons a t =>
      show (List.take chunk (a :: t) :: batchesAux chunk n
          (List.drop chunk (a :: t))).flatten = a :: t
      rw [List.flatten_cons, ih (List.drop chunk (a :: t))
        (by rw [List.length_drop]; simp at hl ⊢; omega)]
      exact List.take_append_drop chunk (a :: t)

/-- The batches of a record list concatenate back to the list. -/
theorem batches_flatten (chunk : Nat) (h2 : 0 < chunk) (l : List Record) :
    (batches chunk l).flatten = l :=
  batchesAux_flatten chunk h2 l.length l (Nat.le_refl _)

theorem runOps_inserts_none (bs : List (List Record)) :
    ∀ init : List Record,
      (runOps ⟨some init⟩ (bs.map .insertBatch ++ [.closeConn]) none).persons =
        some (init ++ bs.flatten) := by
  induction bs with
  | nil => intro init; simp [runOps, applyStep]
  | cons b rest ih =>
    intro init
    show (runOps ⟨some (init ++ b)⟩
        (rest.map .insertBatch ++ [.closeConn]) none).persons = _
    rw [ih (init ++ b), List.flatten_cons, List.append_assoc]

theorem runOps_inserts_some (bs : List (List Record)) :
    ∀ (init : List Record) (k : Nat),
      (runOps ⟨some init⟩ (bs.map .insertBatch ++ [.closeConn])
          (some k)).persons =
        some (init ++ (bs.take k).flatten) := by
  induction bs with
  | nil =>
    intro init k
    cases k with
    | zero => simp [runOps]
    | succ j =>
      cases j with
      | zero => simp [runOps, applyStep]
      | succ j2 => simp [runOps, applyStep]
  | cons b rest ih =>
    intro init k
    cases k with
    | zero => simp [runOps]
    | succ j =>
      show (runOps ⟨some (init ++ b)⟩
          (rest.map .insertBatch ++ [.closeConn]) (some j)).persons = _
      rw [ih (init ++ b) j, List.take_succ_cons, List.flatten_cons,
        List.append_assoc]

/-- C7: for every prior table state, a fully successful `store_data` leaves
exactly the new record set (the old rows deleted before the writes); a run
failing at any point from the first batch write on leaves only a prefix of
the new batches and never any old row; any injected failure is absorbed
inside `store_data`; and the pipeline tail profiles the in-memory anonymized
list whatever the persistence outcome. -/
theorem c7_store_data (chunk : Nat) (h2 : 0 < chunk) (db : DB)
    (data : List Record) :
    (store_data chunk db data none).persons = some data ∧
    (∀ k, (store_data chunk db data (some (k + 3))).persons =
      some (((batches chunk data).take k).flatten)) ∧
    (∀ failAt, (pipelineTail chunk db data failAt).2 = profile_data data) := by
  refine ⟨?_, ?_, fun _ => rfl⟩
  · have hred : store_data chunk db data none =
        runOps ⟨some []⟩
          ((batches chunk data).map .insertBatch ++ [.closeConn]) none := rfl
    rw [hred, runOps_inserts_none, List.nil_append,
      batches_flatten chunk h2 data]
  · intro k
    have hred : store_data chunk db data (some (k + 3)) =
        runOps ⟨some []⟩
          ((batches chunk data).map .insertBatch ++ [.closeConn]) (some k) := rfl
    rw [hred, runOps_inserts_some, List.nil_append]

/-- C7 witness: with batch size two and a pre-populated table, the pipeline
tail replaces the rows and profiles the in-memory list. -/
theorem c7_store_data_witness :
    0 < 2 ∧
    ((store_data 2 c7Db c7Data none).persons = some c7Data ∧
      (∀ k, (store_data 2 c7Db c7Data (some (k + 3))).persons =
        some (((batches 2 c7Data).take k).flatten)) ∧
      (∀ failAt, (pipelineTail 2 c7Db c7Data failAt).2 =
        profile_data c7Data)) :=
  ⟨by decide, c7_store_data 2 (by decide) c7Db c7Data⟩

/-! ## C5 — anonymization -/

theorem splitOnCp_get_zero (sep : Nat) (l : List Nat) :
    (splitOnCp sep l).get? 0 =
      some (l.takeWhile (fun c => !(c == sep))) := by
  induction l with
  | nil => rfl
  | cons c rest ih =>
    by_cases hc : c = sep
    · subst hc
      simp [splitOnCp, List.takeWhile_cons]
    · have hb : (c == sep) = false := by simp [hc]
      obtain ⟨tail, htail⟩ :
          ∃ t, splitOnCp sep rest =
            rest.takeWhile (fun c => !(c == sep)) :: t := by
        cases hsp : splitOnCp sep rest with
        | nil => rw [hsp] at ih; cases ih
        | cons s ss =>
          rw [hsp] at ih
          injection ih with ih2
          exact ⟨ss, by rw [ih2]⟩
      simp [splitOnCp, hc, htail, List.takeWhile_cons, hb]

theorem splitOnCp_get_one (sep : Nat) (l : List Nat) :
    (splitOnCp sep l).get? 1 =
      match l.dropWhile (fun c => !(c == sep)) with
      | [] => none
      | _ :: rest => some (rest.takeWhile (fun c => !(c == sep))) := by
  induction l with
  | nil => rfl
  | cons c rest ih =>
    by_cases hc : c = sep
    · subst hc
      have hred : splitOnCp c (c :: rest) = [] :: splitOnCp c rest := by
        simp [splitOnCp]
      rw [hred]
      rw [show (([] :: splitOnCp c rest).get? 1) =
        (splitOnCp c rest).get? 0 from rfl, splitOnCp_get_zero]
      simp [List.dropWhile_cons]
    · have hb : (c == sep) = false := by simp [hc]
      obtain ⟨s, ss, hsp⟩ : ∃ s ss, splitOnCp sep rest = s :: ss := by
        cases hsp : splitOnCp sep rest with
        | nil =>
          have := splitOnCp_get_zero sep rest
          rw [hsp] at this
          cases this
        | cons s ss => exact ⟨s, ss, rfl⟩
      show (splitOnCp sep (c :: rest)).get? 1 = _
      have hred : splitOnCp sep (c :: rest) = (c :: s) :: ss := by
        simp [splitOnCp, hc, hsp]
      rw [hred]
      have hlhs : ((c :: s) :: ss).get? 1 = (s :: ss).get? 1 := rfl
      rw [hlhs, ← hsp, ih]
      simp [List.dropWhile_cons, hb]

/-- `split("@")[1]` is the text between the first `@` and the next `@` or
the end of the string. -/
theorem splitOnCp_get_one_betweenAts (e : PyStr) (provider : PyStr)
    (h : (splitOnCp 64 e).get? 1 = some provider) :
    provider = betweenAts e := by
  rw [splitOnCp_get_one] at h
  cases hd : e.dropWhile (fun c => !(c == 64)) with
  | nil => rw [hd] at h; cases h
  | cons c rest =>
    rw [hd] at h
    injection h with h2
    rw [← h2]
    unfold betweenAts afterFirstAt
    rw [hd]
    rfl

/-- C5 amended: every record the anonymizer accepts yields a record whose
name, email, phone and birthday fields carry the mask token (the email
keeping only the provider part after the mask), whose `email_provider` is the
substring of the original email between the first and second `@` (the whole
remainder when there is exactly one `@`), and whose city and country are the
original address values verbatim. -/
theorem c5_anonymize (nowYear : Int) (person out : Record)
    (h : anonymizeItem nowYear person = some out) :
    dictGet out kFirstname = some (.str maskTok) ∧
    dictGet out kLastname = some (.str maskTok) ∧
    dictGet out kPhone = some (.str maskTok) ∧
    dictGet out kBirthday = some (.str maskTok) ∧
    (∀ e, dictGet person kEmail = some (.str e) →
      dictGet out kEmailProvider = some (.str (betweenAts e)) ∧
      dictGet out kEmail = some (.str (maskTok ++ 64 :: betweenAts e))) ∧
    (∀ addr, dictGet person kAddress = some (.dict addr) →
      dictGet out kCity = dictGet addr kCity ∧
      dictGet out kCountry = dictGet addr kCountry) := by
  unfold anonymizeItem at h
  cases hb : dictGet person kBirthday with
  | none => simp [hb] at h
  | some vb =>
    cases vb with
    | int n => simp [hb] at h
    | dict f => simp [hb] at h
    | list l => simp [hb] at h
    | str bday =>
      simp only [hb] at h
      cases hag : calculate_age_group nowYear bday with
      | none => simp [hag] at h
      | some ageGroup =>
        simp only [hag] at h
        cases he : dictGet person kEmail with
        | none => simp [he] at h
        | some ve =>
          cases ve with
          | int n => simp [he] at h
          | dict f => simp [he] at h
          | list l => simp [he] at h
          | str e0 =>
            simp only [he] at h
            cases hprov : (splitOnCp 64 e0).get? 1 with
            | none => rw [hprov] at h; simp at h
            | some provider =>
              rw [hprov] at h
              cases ha : dictGet person kAddress with
              | none => simp [ha] at h
              | some va =>
                cases va with
                | int n => simp [ha] at h
                | str s => simp [ha] at h
                | list l => simp [ha] at h
                | dict addr0 =>
                  simp only [ha] at h
                  cases hcity : dictGet addr0 kCity with
                  | none => simp [hcity] at h
                  | some city =>
                    simp only [hcity] at h
                    cases hcountry : dictGet addr0 kCountry with
                    | none => simp [hcountry] at h
                    | some country =>
                      simp only [hcountry] at h
                      injection h with h2
                      subst h2
                      have hpb := splitOnCp_get_one_betweenAts e0 provider hprov
                      refine ⟨rfl, rfl, rfl, rfl, ?_, ?_⟩
                      · intro e he2
                        injection he2 with he3
                        injection he3 with he4
                        subst he4
                        subst hpb
                        exact ⟨rfl, rfl⟩
                      · intro addr haddr
                        injection haddr with ha2
                        injection ha2 with ha3
                        subst ha3
                        rw [hcity, hcountry]
                        exact ⟨rfl, rfl⟩

/-- C5 counterexample: the email of seven code points `a@b.c@x` is accepted
by `validate_email` and its birthday parses, but the anonymizer publishes
`email_provider` as the three code points `b.c` — `split("@")[1]` — and not
the substring after the `@`, which is the five code points `b.c@x`. -/
theorem c5_counterexample :
    validate_email [97, 64, 98, 46, 99, 64, 120] = true ∧
    (strptimeYmd cp19900101).isSome = true ∧
    dictGet ((anonymize_data 2024 [c5Person]).headD []) kEmailProvider =
      some (.str [98, 46, 99]) ∧
    afterFirstAt [97, 64, 98, 46, 99, 64, 120] = [98, 46, 99, 64, 120] ∧
    ([98, 46, 99] : List Nat) ≠ [98, 46, 99, 64, 120] :=
  ⟨by decide, by decide, rfl, by decide, by decide⟩

/-- C5 amended, witness: the concrete record is anonymized as described. -/
theorem c5_anonymize_witness :
    anonymizeItem 2024 c5GoodPerson = some c5GoodOut ∧
    (dictGet c5GoodOut kFirstname = some (.str maskTok) ∧
      dictGet c5GoodOut kLastname = some (.str maskTok) ∧
      dictGet c5GoodOut kPhone = some (.str maskTok) ∧
      dictGet c5GoodOut kBirthday = some (.str maskTok) ∧
      (∀ e, dictGet c5GoodPerson kEmail = some (.str e) →
        dictGet c5GoodOut kEmailProvider = some (.str (betweenAts e)) ∧
        dictGet c5GoodOut kEmail = some (.str (maskTok ++ 64 :: betweenAts e))) ∧
      (∀ addr, dictGet c5GoodPerson kAddress = some (.dict addr) →
        dictGet c5GoodOut kCity = dictGet addr kCity ∧
        dictGet c5GoodOut kCountry = dictGet addr kCountry)) :=
  ⟨rfl, c5_anonymize 2024 c5GoodPerson c5GoodOut rfl⟩

/-! ## C3 — date validation -/

theorem dayCands_head_cons_cons (g h : Nat) (t : List Nat) :
    (dayCands (g :: h :: t)).head? =
      (if 48 ≤ g ∧ g ≤ 57 ∧ 48 ≤ h ∧ h ≤ 57 ∧ 1 ≤ 10 * (g - 48) + (h - 48) ∧
          10 * (g - 48) + (h - 48) ≤ 31 then
        some (10 * (g - 48) + (h - 48), t)
      else if 49 ≤ g ∧ g ≤ 57 then some (g - 48, h :: t) else none) := by
  simp only [dayCands]
  split_ifs <;>
    first
      | rfl
      | (exfalso; omega)
      | (simp only [List.singleton_append, List.nil_append, List.cons_append,
          List.append_nil, List.head?_cons, Option.some.injEq, Prod.mk.injEq,
          and_true]
         omega)

theorem dayCands_head_one (g : Nat) :
    (dayCands [g]).head? =
      (if 49 ≤ g ∧ g ≤ 57 then some (g - 48, ([] : List Nat)) else none) := by
  simp only [dayCands]
  split_ifs <;> rfl

theorem monthCands_cons_cons (e f : Nat) (t : List Nat) :
    monthCands (e :: f :: t) =
      (if 48 ≤ e ∧ e ≤ 57 ∧ 48 ≤ f ∧ f ≤ 57 ∧ 1 ≤ 10 * (e - 48) + (f - 48) ∧
          10 * (e - 48) + (f - 48) ≤ 12 then
        [(10 * (e - 48) + (f - 48), t)] else []) ++
      (if 49 ≤ e ∧ e ≤ 57 then [(e - 48, f :: t)] else []) := by
  simp only [monthCands]
  split_ifs <;>
    first
      | rfl
      | (exfalso; omega)
      | (simp only [List.singleton_append, List.nil_append, List.cons_append,
          List.append_nil, List.cons.injEq, Prod.mk.injEq, and_true, true_and]
         omega)

theorem monthCands_one (e : Nat) :
    monthCands [e] =
      (if 49 ≤ e ∧ e ≤ 57 then [(e - 48, ([] : List Nat))] else []) := rfl

theorem monthFieldTwo_true (e f : Nat)
    (h : 48 ≤ e ∧ e ≤ 57 ∧ 48 ≤ f ∧ f ≤ 57 ∧ 1 ≤ 10 * (e - 48) + (f - 48) ∧
      10 * (e - 48) + (f - 48) ≤ 12) : monthFieldTwo e f = true := by
  simp only [monthFieldTwo, isDigitCp, Bool.and_eq_true, decide_eq_true_eq]
  omega

theorem monthFieldTwo_false (e f : Nat)
    (h : ¬(48 ≤ e ∧ e ≤ 57 ∧ 48 ≤ f ∧ f ≤ 57 ∧ 1 ≤ 10 * (e - 48) + (f - 48) ∧
      10 * (e - 48) + (f - 48) ≤ 12)) : monthFieldTwo e f = false := by
  rw [Bool.eq_false_iff]
  intro hc
  simp only [monthFieldTwo, isDigitCp, Bool.and_eq_true, decide_eq_true_eq] at hc
  omega

theorem monthFieldOne_true (e : Nat) (h : 49 ≤ e ∧ e ≤ 57) :
    monthFieldOne e = true := by
  simp only [monthFieldOne, isDigitCp, Bool.and_eq_true, decide_eq_true_eq]
  omega

theorem monthFieldOne_false (e : Nat) (h : ¬(49 ≤ e ∧ e ≤ 57)) :
    monthFieldOne e = false := by
  rw [Bool.eq_false_iff]
  intro hc
  simp only [monthFieldOne, isDigitCp, Bool.and_eq_true, decide_eq_true_eq] at hc
  omega

theorem dayFieldTwo_true (g h : Nat)
    (hh : 48 ≤ g ∧ g ≤ 57 ∧ 48 ≤ h ∧ h ≤ 57 ∧ 1 ≤ 10 * (g - 48) + (h - 48) ∧
      10 * (g - 48) + (h - 48) ≤ 31) : dayFieldTwo g h = true := by
  simp only [dayFieldTwo, isDigitCp, Bool.and_eq_true, decide_eq_true_eq]
  omega

theorem dayFieldTwo_false (g h : Nat)
    (hh : ¬(48 ≤ g ∧ g ≤ 57 ∧ 48 ≤ h ∧ h ≤ 57 ∧ 1 ≤ 10 * (g - 48) + (h - 48) ∧
      10 * (g - 48) + (h - 48) ≤ 31)) : dayFieldTwo g h = false := by
  rw [Bool.eq_false_iff]
  intro hc
  simp only [dayFieldTwo, isDigitCp, Bool.and_eq_true, decide_eq_true_eq] at hc
  omega

theorem dayFieldOne_true (g : Nat) (h : 49 ≤ g ∧ g ≤ 57) :
    dayFieldOne g = true := by
  simp only [dayFieldOne, isDigitCp, Bool.and_eq_true, decide_eq_true_eq]
  omega

theorem dayFieldOne_false (g : Nat) (h : ¬(49 ≤ g ∧ g ≤ 57)) :
    dayFieldOne g = false := by
  rw [Bool.eq_false_iff]
  intro hc
  simp only [dayFieldOne, isDigitCp, Bool.and_eq_true, decide_eq_true_eq] at hc
  omega

theorem beqNat_false_of_ne (a b : Nat) (h : ¬(a = b)) : (a == b) = false := by
  cases hb : a == b with
  | true => exact absurd (by simpa using hb) h
  | false => rfl

theorem parseMonthDay_spec_three (e f g y : Nat) :
    parseMonthDay [e, f, g] y = specMonthDay [e, f, g] y := by
  by_cases hM2 : 48 ≤ e ∧ e ≤ 57 ∧ 48 ≤ f ∧ f ≤ 57 ∧
      1 ≤ 10 * (e - 48) + (f - 48) ∧ 10 * (e - 48) + (f - 48) ≤ 12
  · have hf45 : ¬(f = 45) := by obtain ⟨h1, h2, h3, h4, h5, h6⟩ := hM2; omega
    have hL : parseMonthDay [e, f, g] y = false := by
      unfold parseMonthDay
      rw [monthCands_cons_cons, if_pos hM2]
      by_cases hM1 : 49 ≤ e ∧ e ≤ 57
      · rw [if_pos hM1]
        simp only [List.singleton_append, matchMonthDay]
        by_cases hg : g = 45
        · rw [if_pos hg, if_neg hf45] <;> rfl
        · rw [if_neg hg, if_neg hf45] <;> rfl
      · rw [if_neg hM1]
        simp only [List.append_nil, matchMonthDay]
        by_cases hg : g = 45
        · rw [if_pos hg] <;> rfl
        · rw [if_neg hg] <;> rfl
    have hR : specMonthDay [e, f, g] y = false := by
      simp only [specMonthDay, beqNat_false_of_ne f 45 hf45, Bool.false_and]
    rw [hL] <;> rw [hR]
  · by_cases hM1 : 49 ≤ e ∧ e ≤ 57
    · by_cases hf : f = 45
      · by_cases hgd : 49 ≤ g ∧ g ≤ 57
        · have hL : parseMonthDay [e, f, g] y = isRealDate y (e - 48) (g - 48) := by
            unfold parseMonthDay
            rw [monthCands_cons_cons, if_neg hM2, if_pos hM1]
            simp only [List.nil_append, matchMonthDay]
            rw [if_pos hf, dayCands_head_one, if_pos hgd]
            simp only [List.isEmpty_nil, Bool.true_and]
          have hR : specMonthDay [e, f, g] y = isRealDate y (e - 48) (g - 48) := by
            subst hf
            simp only [specMonthDay, monthFieldOne_true e hM1,
              dayFieldOne_true g hgd, beq_self_eq_true, Bool.true_and]
          rw [hL] <;> rw [hR]
        · have hL : parseMonthDay [e, f, g] y = false := by
            unfold parseMonthDay
            rw [monthCands_cons_cons, if_neg hM2, if_pos hM1]
            simp only [List.nil_append, matchMonthDay]
            rw [if_pos hf, dayCands_head_one, if_neg hgd] <;> rfl
          have hR : specMonthDay [e, f, g] y = false := by
            simp only [specMonthDay, dayFieldOne_false g hgd, Bool.and_false,
              Bool.false_and]
          rw [hL] <;> rw [hR]
      · have hL : parseMonthDay [e, f, g] y = false := by
          unfold parseMonthDay
          rw [monthCands_cons_cons, if_neg hM2, if_pos hM1]
          simp only [List.nil_append, matchMonthDay]
          rw [if_neg hf] <;> rfl
        have hR : specMonthDay [e, f, g] y = false := by
          simp only [specMonthDay, beqNat_false_of_ne f 45 hf, Bool.false_and]
        rw [hL] <;> rw [hR]
    · have hL : parseMonthDay [e, f, g] y = false := by
        unfold parseMonthDay
        rw [monthCands_cons_cons, if_neg hM2, if_neg hM1] <;> rfl
      have hR : specMonthDay [e, f, g] y = false := by
        simp only [specMonthDay, monthFieldOne_false e hM1, Bool.and_false,
          Bool.false_and]
      rw [hL] <;> rw [hR]

theorem parseMonthDay_spec_four (e f g h y : Nat) :
    parseMonthDay [e, f, g, h] y = specMonthDay [e, f, g, h] y := by
  by_cases hM2 : 48 ≤ e ∧ e ≤ 57 ∧ 48 ≤ f ∧ f ≤ 57 ∧
      1 ≤ 10 * (e - 48) + (f - 48) ∧ 10 * (e - 48) + (f - 48) ≤ 12
  · have hf45 : ¬(f = 45) := by obtain ⟨h1, h2, h3, h4, h5, h6⟩ := hM2; omega
    have hfb := beqNat_false_of_ne f 45 hf45
    by_cases hg : g = 45
    · by_cases hhd : 49 ≤ h ∧ h ≤ 57
      · have hL : parseMonthDay [e, f, g, h] y =
            isRealDate y (10 * (e - 48) + (f - 48)) (h - 48) := by
          unfold parseMonthDay
          rw [monthCands_cons_cons, if_pos hM2]
          by_cases hM1 : 49 ≤ e ∧ e ≤ 57
          · rw [if_pos hM1]
            simp only [List.singleton_append, matchMonthDay]
            rw [if_pos hg, dayCands_head_one, if_pos hhd]
            simp only [List.isEmpty_nil, Bool.true_and]
          · rw [if_neg hM1]
            simp only [List.append_nil, matchMonthDay]
            rw [if_pos hg, dayCands_head_one, if_pos hhd]
            simp only [List.isEmpty_nil, Bool.true_and]
        have hR : specMonthDay [e, f, g, h] y =
            isRealDate y (10 * (e - 48) + (f - 48)) (h - 48) := by
          subst hg
          simp only [specMonthDay, monthFieldTwo_true e f hM2,
            dayFieldOne_true h hhd, beq_self_eq_true, Bool.true_and,
            Bool.and_true, hfb, Bool.false_and, Bool.or_false]
        rw [hL] <;> rw [hR]
      · have hL : parseMonthDay [e, f, g, h] y = false := by
          unfold parseMonthDay
          rw [monthCands_cons_cons, if_pos hM2]
          by_cases hM1 : 49 ≤ e ∧ e ≤ 57
          · rw [if_pos hM1]
            simp only [List.singleton_append, matchMonthDay]
            rw [if_pos hg, dayCands_head_one, if_neg hhd, if_neg hf45] <;> rfl
          · rw [if_neg hM1]
            simp only [List.append_nil, matchMonthDay]
            rw [if_pos hg, dayCands_head_one, if_neg hhd] <;> rfl
        have hR : specMonthDay [e, f, g, h] y = false := by
          simp only [specMonthDay, dayFieldOne_false h hhd, Bool.and_false,
            hfb, Bool.false_and, Bool.or_false]
        rw [hL] <;> rw [hR]
    · have hgb := beqNat_false_of_ne g 45 hg
      have hL : parseMonthDay [e, f, g, h] y = false := by
        unfold parseMonthDay
        rw [monthCands_cons_cons, if_pos hM2]
        by_cases hM1 : 49 ≤ e ∧ e ≤ 57
        · rw [if_pos hM1]
          simp only [List.singleton_append, matchMonthDay]
          rw [if_neg hg, if_neg hf45] <;> rfl
        · rw [if_neg hM1]
          simp only [List.append_nil, matchMonthDay]
          rw [if_neg hg] <;> rfl
      have hR : specMonthDay [e, f, g, h] y = false := by
        simp only [specMonthDay, hgb, hfb, Bool.false_and, Bool.or_false]
      rw [hL] <;> rw [hR]
  · by_cases hM1 : 49 ≤ e ∧ e ≤ 57
    · by_cases hf : f = 45
      · by_cases hd2 : 48 ≤ g ∧ g ≤ 57 ∧ 48 ≤ h ∧ h ≤ 57 ∧
            1 ≤ 10 * (g - 48) + (h - 48) ∧ 10 * (g - 48) + (h - 48) ≤ 31
        · have hL : parseMonthDay [e, f, g, h] y =
              isRealDate y (e - 48) (10 * (g - 48) + (h - 48)) := by
            unfold parseMonthDay
            rw [monthCands_cons_cons, if_neg hM2, if_pos hM1]
            simp only [List.nil_append, matchMonthDay]
            rw [if_pos hf, dayCands_head_cons_cons, if_pos hd2]
            simp only [List.isEmpty_nil, Bool.true_and]
          have hR : specMonthDay [e, f, g, h] y =
              isRealDate y (e - 48) (10 * (g - 48) + (h - 48)) := by
            subst hf
            simp only [specMonthDay, monthFieldTwo_false e 45 hM2,
              monthFieldOne_true e hM1, dayFieldTwo_true g h hd2,
              beq_self_eq_true, Bool.true_and, Bool.and_false, Bool.false_and,
              Bool.false_or]
          rw [hL] <;> rw [hR]
        · have hR : specMonthDay [e, f, g, h] y = false := by
            subst hf
            simp only [specMonthDay, monthFieldTwo_false e 45 hM2,
              dayFieldTwo_false g h hd2, Bool.and_false, Bool.false_and,
              Bool.or_false]
          by_cases hgd : 49 ≤ g ∧ g ≤ 57
          · have hL : parseMonthDay [e, f, g, h] y = false := by
              unfold parseMonthDay
              rw [monthCands_cons_cons, if_neg hM2, if_pos hM1]
              simp only [List.nil_append, matchMonthDay]
              rw [if_pos hf, dayCands_head_cons_cons, if_neg hd2, if_pos hgd]
              simp only [List.isEmpty_cons, Bool.false_and]
            rw [hL] <;> rw [hR]
          · have hL : parseMonthDay [e, f, g, h] y = false := by
              unfold parseMonthDay
              rw [monthCands_cons_cons, if_neg hM2, if_pos hM1]
              simp only [List.nil_append, matchMonthDay]
              rw [if_pos hf, dayCands_head_cons_cons, if_neg hd2, if_neg hgd] <;> rfl
            rw [hL] <;> rw [hR]
      · have hfb := beqNat_false_of_ne f 45 hf
        have hL : parseMonthDay [e, f, g, h] y = false := by
          unfold parseMonthDay
          rw [monthCands_cons_cons, if_neg hM2, if_pos hM1]
          simp only [List.nil_append, matchMonthDay]
          rw [if_neg hf] <;> rfl
        have hR : specMonthDay [e, f, g, h] y = false := by
          simp only [specMonthDay, monthFieldTwo_false e f hM2, hfb,
            Bool.and_false, Bool.false_and, Bool.or_false]
        rw [hL] <;> rw [hR]
    · have hL : parseMonthDay [e, f, g, h] y = false := by
        unfold parseMonthDay
        rw [monthCands_cons_cons, if_neg hM2, if_neg hM1] <;> rfl
      have hR : specMonthDay [e, f, g, h] y = false := by
        simp only [specMonthDay, monthFieldTwo_false e f hM2,
          monthFieldOne_false e hM1, Bool.and_false, Bool.false_and,
          Bool.or_false]
      rw [hL] <;> rw [hR]

theorem parseMonthDay_spec_five (e f g h i y : Nat) :
    parseMonthDay [e, f, g, h, i] y = specMonthDay [e, f, g, h, i] y := by
  by_cases hM2 : 48 ≤ e ∧ e ≤ 57 ∧ 48 ≤ f ∧ f ≤ 57 ∧
      1 ≤ 10 * (e - 48) + (f - 48) ∧ 10 * (e - 48) + (f - 48) ≤ 12
  · have hf45 : ¬(f = 45) := by obtain ⟨h1, h2, h3, h4, h5, h6⟩ := hM2; omega
    by_cases hg : g = 45
    · by_cases hd2 : 48 ≤ h ∧ h ≤ 57 ∧ 48 ≤ i ∧ i ≤ 57 ∧
          1 ≤ 10 * (h - 48) + (i - 48) ∧ 10 * (h - 48) + (i - 48) ≤ 31
      · have hL : parseMonthDay [e, f, g, h, i] y =
            isRealDate y (10 * (e - 48) + (f - 48)) (10 * (h - 48) + (i - 48)) := by
          unfold parseMonthDay
          rw [monthCands_cons_cons, if_pos hM2]
          by_cases hM1 : 49 ≤ e ∧ e ≤ 57
          · rw [if_pos hM1]
            simp only [List.singleton_append, matchMonthDay]
            rw [if_pos hg, dayCands_head_cons_cons, if_pos hd2]
            simp only [List.isEmpty_nil, Bool.true_and]
          · rw [if_neg hM1]
            simp only [List.append_nil, matchMonthDay]
            rw [if_pos hg, dayCands_head_cons_cons, if_pos hd2]
            simp only [List.isEmpty_nil, Bool.true_and]
        have hR : specMonthDay [e, f, g, h, i] y =
            isRealDate y (10 * (e - 48) + (f - 48)) (10 * (h - 48) + (i - 48)) := by
          subst hg
          simp only [specMonthDay, monthFieldTwo_true e f hM2,
            dayFieldTwo_true h i hd2, beq_self_eq_true, Bool.true_and]
        rw [hL] <;> rw [hR]
      · have hR : specMonthDay [e, f, g, h, i] y = false := by
          simp only [specMonthDay, dayFieldTwo_false h i hd2, Bool.and_false,
            Bool.false_and]
        by_cases hhd : 49 ≤ h ∧ h ≤ 57
        · have hL : parseMonthDay [e, f, g, h, i] y = false := by
            unfold parseMonthDay
            rw [monthCands_cons_cons, if_pos hM2]
            by_cases hM1 : 49 ≤ e ∧ e ≤ 57
            · rw [if_pos hM1]
              simp only [List.singleton_append, matchMonthDay]
              rw [if_pos hg, dayCands_head_cons_cons, if_neg hd2, if_pos hhd]
              simp only [List.isEmpty_cons, Bool.false_and]
            · rw [if_neg hM1]
              simp only [List.append_nil, matchMonthDay]
              rw [if_pos hg, dayCands_head_cons_cons, if_neg hd2, if_pos hhd]
              simp only [List.isEmpty_cons, Bool.false_and]
          rw [hL] <;> rw [hR]
        · have hL : parseMonthDay [e, f, g, h, i] y = false := by
            unfold parseMonthDay
            rw [monthCands_cons_cons, if_pos hM2]
            by_cases hM1 : 49 ≤ e ∧ e ≤ 57
            · rw [if_pos hM1]
              simp only [List.singleton_append, matchMonthDay]
              rw [if_pos hg, dayCands_head_cons_cons, if_neg hd2, if_neg hhd,
                if_neg hf45] <;> rfl
            · rw [if_neg hM1]
              simp only [List.append_nil, matchMonthDay]
              rw [if_pos hg, dayCands_head_cons_cons, if_neg hd2, if_neg hhd] <;> rfl
          rw [hL] <;> rw [hR]
    · have hgb := beqNat_false_of_ne g 45 hg
      have hL : parseMonthDay [e, f, g, h, i] y = false := by
        unfold parseMonthDay
        rw [monthCands_cons_cons, if_pos hM2]
        by_cases hM1 : 49 ≤ e ∧ e ≤ 57
        · rw [if_pos hM1]
          simp only [List.singleton_append, matchMonthDay]
          rw [if_neg hg, if_neg hf45] <;> rfl
        · rw [if_neg hM1]
          simp only [List.append_nil, matchMonthDay]
          rw [if_neg hg] <;> rfl
      have hR : specMonthDay [e, f, g, h, i] y = false := by
        simp only [specMonthDay, hgb, Bool.false_and]
      rw [hL] <;> rw [hR]
  · have hR : specMonthDay [e, f, g, h, i] y = false := by
      simp only [specMonthDay, monthFieldTwo_false e f hM2, Bool.and_false,
        Bool.false_and]
    by_cases hM1 : 49 ≤ e ∧ e ≤ 57
    · by_cases hf : f = 45
      · by_cases hd2 : 48 ≤ g ∧ g ≤ 57 ∧ 48 ≤ h ∧ h ≤ 57 ∧
            1 ≤ 10 * (g - 48) + (h - 48) ∧ 10 * (g - 48) + (h - 48) ≤ 31
        · have hL : parseMonthDay [e, f, g, h, i] y = false := by
            unfold parseMonthDay
            rw [monthCands_cons_cons, if_neg hM2, if_pos hM1]
            simp only [List.nil_append, matchMonthDay]
            rw [if_pos hf, dayCands_head_cons_cons, if_pos hd2]
            simp only [List.isEmpty_cons, Bool.false_and]
          rw [hL] <;> rw [hR]
        · by_cases hgd : 49 ≤ g ∧ g ≤ 57
          · have hL : parseMonthDay [e, f, g, h, i] y = false := by
              unfold parseMonthDay
              rw [monthCands_cons_cons, if_neg hM2, if_pos hM1]
              simp only [List.nil_append, matchMonthDay]
              rw [if_pos hf, dayCands_head_cons_cons, if_neg hd2, if_pos hgd]
              simp only [List.isEmpty_cons, Bool.false_and]
            rw [hL] <;> rw [hR]
          · have hL : parseMonthDay [e, f, g, h, i] y = false := by
              unfold parseMonthDay
              rw [monthCands_cons_cons, if_neg hM2, if_pos hM1]
              simp only [List.nil_append, matchMonthDay]
              rw [if_pos hf, dayCands_head_cons_cons, if_neg hd2, if_neg hgd] <;> rfl
            rw [hL] <;> rw [hR]
      · have hL : parseMonthDay [e, f, g, h, i] y = false := by
          unfold parseMonthDay
          rw [monthCands_cons_cons, if_neg hM2, if_pos hM1]
          simp only [List.nil_append, matchMonthDay]
          rw [if_neg hf] <;> rfl
        rw [hL] <;> rw [hR]
    · have hL : parseMonthDay [e, f, g, h, i] y = false := by
        unfold parseMonthDay
        rw [monthCands_cons_cons, if_neg hM2, if_neg hM1] <;> rfl
      rw [hL] <;> rw [hR]

theorem parseMonthDay_spec_long (e f g h i j : Nat) (tail : List Nat) (y : Nat) :
    parseMonthDay (e :: f :: g :: h :: i :: j :: tail) y =
      specMonthDay (e :: f :: g :: h :: i :: j :: tail) y := by
  have hR : specMonthDay (e :: f :: g :: h :: i :: j :: tail) y = false := rfl
  have hL : parseMonthDay (e :: f :: g :: h :: i :: j :: tail) y = false := by
    unfold parseMonthDay
    rw [monthCands_cons_cons]
    by_cases hM2 : 48 ≤ e ∧ e ≤ 57 ∧ 48 ≤ f ∧ f ≤ 57 ∧
        1 ≤ 10 * (e - 48) + (f - 48) ∧ 10 * (e - 48) + (f - 48) ≤ 12
    · have hf45 : ¬(f = 45) := by obtain ⟨h1, h2, h3, h4, h5, h6⟩ := hM2; omega
      rw [if_pos hM2]
      by_cases hM1 : 49 ≤ e ∧ e ≤ 57
      · rw [if_pos hM1]
        simp only [List.singleton_append, matchMonthDay]
        by_cases hg : g = 45
        · rw [if_pos hg, dayCands_head_cons_cons]
          by_cases hd2 : 48 ≤ h ∧ h ≤ 57 ∧ 48 ≤ i ∧ i ≤ 57 ∧
              1 ≤ 10 * (h - 48) + (i - 48) ∧ 10 * (h - 48) + (i - 48) ≤ 31
          · rw [if_pos hd2]
            simp only [List.isEmpty_cons, Bool.false_and]
          · rw [if_neg hd2]
            by_cases hhd : 49 ≤ h ∧ h ≤ 57
            · rw [if_pos hhd]
              simp only [List.isEmpty_cons, Bool.false_and]
            · rw [if_neg hhd, if_neg hf45] <;> rfl
        · rw [if_neg hg, if_neg hf45] <;> rfl
      · rw [if_neg hM1]
        simp only [List.append_nil, matchMonthDay]
        by_cases hg : g = 45
        · rw [if_pos hg, dayCands_head_cons_cons]
          by_cases hd2 : 48 ≤ h ∧ h ≤ 57 ∧ 48 ≤ i ∧ i ≤ 57 ∧
              1 ≤ 10 * (h - 48) + (i - 48) ∧ 10 * (h - 48) + (i - 48) ≤ 31
          · rw [if_pos hd2]
            simp only [List.isEmpty_cons, Bool.false_and]
          · rw [if_neg hd2]
            by_cases hhd : 49 ≤ h ∧ h ≤ 57
            · rw [if_pos hhd]
              simp only [List.isEmpty_cons, Bool.false_and]
            · rw [if_neg hhd] <;> rfl
        · rw [if_neg hg] <;> rfl
    · rw [if_neg hM2]
      by_cases hM1 : 49 ≤ e ∧ e ≤ 57
      · rw [if_pos hM1]
        simp only [List.nil_append, matchMonthDay]
        by_cases hf : f = 45
        · rw [if_pos hf, dayCands_head_cons_cons]
          by_cases hd2 : 48 ≤ g ∧ g ≤ 57 ∧ 48 ≤ h ∧ h ≤ 57 ∧
              1 ≤ 10 * (g - 48) + (h - 48) ∧ 10 * (g - 48) + (h - 48) ≤ 31
          · rw [if_pos hd2]
            simp only [List.isEmpty_cons, Bool.false_and]
          · rw [if_neg hd2]
            by_cases hgd : 49 ≤ g ∧ g ≤ 57
            · rw [if_pos hgd]
              simp only [List.isEmpty_cons, Bool.false_and]
            · rw [if_neg hgd] <;> rfl
        · rw [if_neg hf] <;> rfl
      · rw [if_neg hM1] <;> rfl
  rw [hL] <;> rw [hR]

/-- The month-day part of the pattern accepts exactly the amended
month-dash-day shapes. -/
theorem parseMonthDay_eq_spec (rest : List Nat) (y : Nat) :
    parseMonthDay rest y = specMonthDay rest y := by
  rcases rest with _ | ⟨e, _ | ⟨f, _ | ⟨g, _ | ⟨h, _ | ⟨i, _ | ⟨j, tail⟩⟩⟩⟩⟩⟩
  · rfl
  · have hL : parseMonthDay [e] y = false := by
      unfold parseMonthDay
      rw [monthCands_one]
      by_cases hM1 : 49 ≤ e ∧ e ≤ 57
      · rw [if_pos hM1] <;> rfl
      · rw [if_neg hM1] <;> rfl
    rw [hL] <;> rfl
  · have hL : parseMonthDay [e, f] y = false := by
      unfold parseMonthDay
      rw [monthCands_cons_cons]
      by_cases hM2 : 48 ≤ e ∧ e ≤ 57 ∧ 48 ≤ f ∧ f ≤ 57 ∧
          1 ≤ 10 * (e - 48) + (f - 48) ∧ 10 * (e - 48) + (f - 48) ≤ 12
      · have hf45 : ¬(f = 45) := by
          obtain ⟨h1, h2, h3, h4, h5, h6⟩ := hM2; omega
        rw [if_pos hM2]
        by_cases hM1 : 49 ≤ e ∧ e ≤ 57
        · rw [if_pos hM1]
          simp only [List.singleton_append, matchMonthDay]
          rw [if_neg hf45] <;> rfl
        · rw [if_neg hM1] <;> rfl
      · rw [if_neg hM2]
        by_cases hM1 : 49 ≤ e ∧ e ≤ 57
        · rw [if_pos hM1]
          simp only [List.nil_append, matchMonthDay]
          by_cases hf : f = 45
          · rw [if_pos hf] <;> rfl
          · rw [if_neg hf] <;> rfl
        · rw [if_neg hM1] <;> rfl
    rw [hL] <;> rfl
  · exact parseMonthDay_spec_three e f g y
  · exact parseMonthDay_spec_four e f g h y
  · exact parseMonthDay_spec_five e f g h i y
  · exact parseMonthDay_spec_long e f g h i j tail y

/-- `strptime` succeeds exactly on the amended date shapes. -/
theorem strptimeYmd_isSome_eq (s : PyStr) :
    (strptimeYmd s).isSome = specDateAmended s := by
  match s with
  | [] => rfl
  | [a] => rfl
  | [a, b] => rfl
  | [a, b, c] => rfl
  | [a, b, c, d] => rfl
  | y1 :: y2 :: y3 :: y4 :: d5 :: rest =>
    by_cases hc : d5 = 45 ∧ isDigitCp y1 = true ∧ isDigitCp y2 = true ∧
        isDigitCp y3 = true ∧ isDigitCp y4 = true
    · obtain ⟨h45, h1, h2, h3, h4⟩ := hc
      subst h45
      simp only [strptimeYmd, specDateAmended]
      rw [if_pos ⟨by trivial, h1, h2, h3, h4⟩]
      simp only [h1, h2, h3, h4, beq_self_eq_true, Bool.true_and]
      rw [← parseMonthDay_eq_spec]
      unfold parseMonthDay
      cases hmd : matchMonthDay (monthCands rest) with
      | none => rfl
      | some t =>
        obtain ⟨m, dd, r3⟩ := t
        cases r3 with
        | nil =>
          cases hreal : isRealDate
              (1000 * (y1 - 48) + 100 * (y2 - 48) + 10 * (y3 - 48) + (y4 - 48))
              m dd with
          | true => simp [hreal]
          | false => simp [hreal]
        | cons a l => simp
    · simp only [strptimeYmd, specDateAmended]
      rw [if_neg hc]
      simp only [Option.isSome_none]
      symm
      rw [Bool.eq_false_iff]
      intro habs
      simp only [Bool.and_eq_true, beq_iff_eq] at habs
      obtain ⟨⟨⟨⟨⟨hd, hh1⟩, hh2⟩, hh3⟩, hh4⟩, _⟩ := habs
      exact hc ⟨hd, hh1, hh2, hh3, hh4⟩

/-- C3 counterexample: the strptime-based date validator accepts a date with
an unpadded month and day — the code points of `1990-1-1` — which the
claim's strict `YYYY-MM-DD` shape rejects. -/
theorem c3_counterexample :
    validate_date [49, 57, 57, 48, 45, 49, 45, 49] = true ∧
    specStrictDate [49, 57, 57, 48, 45, 49, 45, 49] = false := by
  exact ⟨by decide, by decide⟩

/-- C3 amended: for every string, `validate_date` returns true exactly when
the string is a four-digit year, a dash, a month field of one or two digits
with value 1..12, a dash, and a day field of one or two digits with value
1..31, nothing more, denoting a real calendar date of the proleptic
Gregorian calendar with year at least 1 — zero padding of month and day is
not required. -/
theorem c3_validate_date (s : PyStr) :
    validate_date s = specDateAmended s :=
  strptimeYmd_isSome_eq s

end DP